import Mathlib

/-!
A shallow embedding of the quiz reconciliation engine of this repository
(`server/storage.ts`, bundled in `dist/index.js`, class `MemStorage`), together
with proofs about it.  The in-memory backend is the authority: `DbStorage`
duplicates the same logic verbatim over a database.

Modelling conventions:
* A JS `Map` keyed by `id` is modelled as a `List Quiz` in insertion/iteration
  order (`Map.set` on an existing key replaces in place, on a fresh key
  appends; `Map.delete` removes the entry).  The `Map` guarantees pairwise
  distinct keys; theorems that need it take `(quizzes.map id).Nodup` as a
  hypothesis.
* JS string normalisation `s.toLowerCase().trim()` is modelled with Lean's
  `String.toLower` and `String.trim`.
* A possibly-absent string field (`uniqueId`) is an `Option String`; JS
  truthiness (`!quiz.uniqueId`) also treats the empty string as absent, which
  `jsUid` captures.  A `Date` value is modelled as its millisecond timestamp
  (`Nat`); a `Date` object is always truthy, so a stored `createdAt` is
  `Option Nat` with truthiness `isSome`.  A JS number field tested for
  truthiness (`version`) is a `Nat` where `0` is the falsy value.
* `JSON.stringify` based content hashes are modelled by the structure
  `ContentHash`; the JS serialisation (normalised title, `:`, decimal question
  count, `:`, JSON array of fixed-key records) is injective on that data, so
  string equality of hashes coincides with equality of `ContentHash` values.
* JS `Array.prototype.sort` is a stable sort with a comparator; Mathlib's
  `List.insertionSort` (insert before the first element the comparator puts
  after) has exactly this stability, and is used for both sorts in
  `createContentHash`.  `localeCompare` ordering is modelled by Lean's
  lexicographic `String` order.
* The float threshold `matchCount >= min * 0.8` is modelled as
  `5 * matchCount ≥ 4 * min`: for `min` divisible by 5 the double product
  `min * 0.8` rounds to the exact integer `4 * min / 5`, and otherwise the
  exact value `0.8 * min` is at distance ≥ 0.2 from any integer while the
  rounding error is below `2⁻⁴⁵`, so the two comparisons agree for every
  feasible list length.
-/

/-- Drop leading whitespace characters. -/
def trimLeftChars : List Char → List Char
  | [] => []
  | c :: cs => if c.isWhitespace then trimLeftChars cs else c :: cs

/-- Drop leading and trailing whitespace characters (JS `String.prototype.trim`
on the characters of the string). -/
def trimChars (l : List Char) : List Char :=
  (trimLeftChars (trimLeftChars l).reverse).reverse

/-- JS `s.toLowerCase().trim()` as used throughout the engine (character-level
implementation of `String.toLower` / `String.trim`, chosen because it reduces
inside the kernel). -/
def normStr (s : String) : String := ⟨trimChars (s.data.map Char.toLower)⟩

/-- Truthiness of the `uniqueId` field: `undefined` and `""` are falsy. -/
def jsUid : Option String → Option String
  | none => none
  | some s => if s = "" then none else some s

/-- One quiz question (`QuestionSchema` in `shared/schema.ts`).  The fields
`answerDescription`, `questionImages` and `answerImages` are carried by the
schema but never read by the reconciliation engine and are omitted here. -/
structure Question where
  question : String
  options : List String
  correctAnswer : String
deriving DecidableEq, Repr

/-- One entry of the `questionsData` array built by `createContentHash`. -/
structure QData where
  question : String
  options : String
  correctAnswer : String
deriving DecidableEq, Repr

/-- A stored quiz record.  The metadata fields `timer`, `category`, `history`,
`lastTaken`, `password` and `createdBy` are stored but never read by the
reconciliation logic and are omitted. -/
structure Quiz where
  id : Nat
  uniqueId : Option String
  title : String
  description : String
  questions : List Question
  isPublic : Bool
  version : Nat
  createdAt : Option Nat
deriving DecidableEq, Repr

/-- A client-submitted quiz record (the `insertQuizSchema` shape: `id` is
omitted; `uniqueId` always reaches `createQuiz` as a string but may be empty;
`version` and `createdAt` are optional, `none` meaning the key is absent). -/
structure QuizPayload where
  uniqueId : Option String
  title : String
  description : String
  questions : List Question
  isPublic : Bool
  version : Option Nat
  createdAt : Option Nat
deriving DecidableEq, Repr

/-- The in-memory storage backend (`MemStorage`): the quiz `Map` in iteration
order, the `quizCurrentId` counter, and a counter modelling `uuidv4`
freshness. -/
structure MemStorage where
  quizzes : List Quiz
  quizCurrentId : Nat
  uuidCounter : Nat
deriving DecidableEq, Repr

/-- JS `Map.set(q.id, q)`: replace in place if the key exists, append
otherwise. -/
def mapSet : List Quiz → Quiz → List Quiz
  | [], q => [q]
  | x :: rest, q => if x.id = q.id then q :: rest else x :: mapSet rest q

/-- JS `Map.delete(i)`: remove the entry with key `i` (the first record with
that id; keys are unique in a `Map`), reporting whether one was removed. -/
def mapDelete : List Quiz → Nat → List Quiz × Bool
  | [], _ => ([], false)
  | q :: rest, i =>
    if q.id = i then (rest, true)
    else
      let r := mapDelete rest i
      (q :: r.1, r.2)

/-- `MemStorage.getQuiz`. -/
def getQuiz (i : Nat) (st : MemStorage) : Option Quiz :=
  st.quizzes.find? (fun q => q.id = i)

/-- `MemStorage.getQuizByUniqueId`: strict equality `quiz.uniqueId === uid`. -/
def getQuizByUniqueId (uid : String) (st : MemStorage) : Option Quiz :=
  st.quizzes.find? (fun q => q.uniqueId = some uid)

/-- `MemStorage.getPublicQuizzes`. -/
def getPublicQuizzes (st : MemStorage) : List Quiz :=
  st.quizzes.filter (fun q => q.isPublic)

/-- `MemStorage.createQuiz`: assigns the next `id`, generates a `uniqueId`
when the submitted one is falsy, defaults `version` via `quiz.version || 1`
and `createdAt` via `quiz.createdAt || new Date()` (`now` is the clock). -/
def createQuiz (p : QuizPayload) (now : Nat) (st : MemStorage) : MemStorage × Quiz :=
  let genNew := (jsUid p.uniqueId).isNone
  let uid : String :=
    match jsUid p.uniqueId with
    | some s => s
    | none => "generated-uuid-" ++ toString st.uuidCounter
  let version : Nat :=
    match p.version with
    | none => 1
    | some v => if v = 0 then 1 else v
  let newQuiz : Quiz :=
    { id := st.quizCurrentId
      uniqueId := some uid
      title := p.title
      description := p.description
      questions := p.questions
      isPublic := p.isPublic
      version := version
      createdAt := some (p.createdAt.getD now) }
  ({ quizzes := mapSet st.quizzes newQuiz
     quizCurrentId := st.quizCurrentId + 1
     uuidCounter := if genNew then st.uuidCounter + 1 else st.uuidCounter },
   newQuiz)

/-- `MemStorage.updateQuiz`: spread the update over the existing record
(`{...existingQuiz, ...quizUpdate}` — a payload key that is present
overrides), then force `version: existingQuiz.version ? existingQuiz.version
+ 1 : 1`.  The payload shape is the one `syncQuizzes` passes (all schema
fields present except the optional `version`/`createdAt`). -/
def updateQuiz (i : Nat) (p : QuizPayload) (st : MemStorage) : MemStorage × Option Quiz :=
  match getQuiz i st with
  | none => (st, none)
  | some existingQuiz =>
    let updatedQuiz : Quiz :=
      { id := existingQuiz.id
        uniqueId :=
          match p.uniqueId with
          | some s => some s
          | none => existingQuiz.uniqueId
        title := p.title
        description := p.description
        questions := p.questions
        isPublic := p.isPublic
        version := if existingQuiz.version = 0 then 1 else existingQuiz.version + 1
        createdAt :=
          match p.createdAt with
          | some t => some t
          | none => existingQuiz.createdAt }
    ({ st with quizzes := mapSet st.quizzes updatedQuiz }, some updatedQuiz)

/-- `MemStorage.deletePrivateQuizzes`: collect the records with
`!quiz.isPublic`, then delete each collected record by id, counting
successful deletions. -/
def deletePrivateQuizzes (st : MemStorage) : MemStorage × Nat :=
  let privates := st.quizzes.filter (fun q => !q.isPublic)
  let res := privates.foldl
    (fun (acc : List Quiz × Nat) q =>
      let d := mapDelete acc.1 q.id
      (d.1, if d.2 then acc.2 + 1 else acc.2))
    (st.quizzes, 0)
  ({ st with quizzes := res.1 }, res.2)

/-- Lexicographic strict order on character lists (JS `<` on strings /
negative `localeCompare`, modelled at the codepoint level; structural so that
it reduces inside the kernel). -/
def ltCharList : List Char → List Char → Bool
  | _, [] => false
  | [], _ :: _ => true
  | a :: as, b :: bs => if a < b then true else if b < a then false else ltCharList as bs

/-- Strict string comparison used by the two sorts in `createContentHash`. -/
def strLtB (a b : String) : Bool := ltCharList a.data b.data

/-- The sort order on strings: `a` comes no later than `b`. -/
def strLeR (a b : String) : Prop := strLtB b a = false

instance : DecidableRel strLeR := fun a b => instDecidableEqBool (strLtB b a) false

/-- The comparator `(a, b) => a.question.localeCompare(b.question)` used to
sort `questionsData`, as the induced weak order on the `question` key. -/
def qdataLeR (a b : QData) : Prop := strLtB b.question a.question = false

instance : DecidableRel qdataLeR := fun a b => instDecidableEqBool (strLtB b.question a.question) false

/-- JS `Array.prototype.join("|")`. -/
def joinBar : List String → String
  | [] => ""
  | [s] => s
  | s :: rest => s ++ "|" ++ joinBar rest

/-- The per-question record built inside `createContentHash`: normalised
prompt, normalised options sorted and joined with `"|"`, normalised correct
answer.  The `typeof`/`Array.isArray` guards in the source always take the
string/array branch on schema-validated data. -/
def tupleOf (q : Question) : QData :=
  { question := normStr q.question
    options := joinBar (List.insertionSort strLeR (q.options.map normStr))
    correctAnswer := normStr q.correctAnswer }

/-- The content of the fingerprint string
`title:count:JSON.stringify(sortedQuestionsData)` returned by
`MemStorage.createContentHash`.  The serialisation is injective on this data,
so fingerprint-string equality is equality of `ContentHash` values. -/
structure ContentHash where
  title : String
  count : Nat
  data : List QData
deriving DecidableEq, Repr

/-- `MemStorage.createContentHash`.  The `questionsData.sort` comparator reads
only the `question` field (`a.question.localeCompare(b.question)`); the sort
is stable.  (The source skips the sort call on an empty array, which sorts to
itself anyway.) -/
def createContentHash (quiz : Quiz) : ContentHash :=
  let questionsData := quiz.questions.map tupleOf
  { title := normStr quiz.title
    count := questionsData.length
    data := List.insertionSort qdataLeR questionsData }

/-- The recency tie-break used verbatim in all three deduplication passes:
`quiz.version && existingQuiz.version && quiz.version > existingQuiz.version
|| quiz.createdAt && existingQuiz.createdAt && new
Date(quiz.createdAt).getTime() > new Date(existingQuiz.createdAt).getTime()`. -/
def keepNewQuiz (quiz existingQuiz : Quiz) : Bool :=
  (!(quiz.version = 0) && !(existingQuiz.version = 0)
      && quiz.version > existingQuiz.version)
  || (quiz.createdAt.isSome && existingQuiz.createdAt.isSome
      && quiz.createdAt.getD 0 > existingQuiz.createdAt.getD 0)

/-- JS `Set.add`. -/
def addId (s : List Nat) (i : Nat) : List Nat := if i ∈ s then s else s ++ [i]

/-- JS `Set.delete`. -/
def delId (s : List Nat) (i : Nat) : List Nat := s.filter (fun j => j ≠ i)

/-- Association-list lookup for the JS `Map`s keyed by `uniqueId` /
content hash (their iteration order is never used). -/
def assocFind {κ : Type} [DecidableEq κ] (m : List (κ × Quiz)) (k : κ) : Option Quiz :=
  (m.find? (fun e => e.1 = k)).map (fun e => e.2)

/-- Association-list `Map.set`: replace the entry with key `k` in place when
present (keys are unique in a `Map`), append otherwise. -/
def assocSet {κ : Type} [DecidableEq κ] : List (κ × Quiz) → κ → Quiz → List (κ × Quiz)
  | [], k, v => [(k, v)]
  | e :: rest, k, v => if e.1 = k then (k, v) :: rest else e :: assocSet rest k v

/-- State of pass 1 of `removeDuplicateQuizzes`: `uniqueIdMap`,
`uniqueQuizIds` and `duplicatesRemoved`. -/
structure P1State where
  map : List (String × Quiz)
  kept : List Nat
  removed : List Quiz

/-- One iteration of the pass-1 loop over `allQuizzes`. -/
def p1Step (s : P1State) (quiz : Quiz) : P1State :=
  match jsUid quiz.uniqueId with
  | none => { s with kept := addId s.kept quiz.id }
  | some uid =>
    match assocFind s.map uid with
    | none =>
      { map := assocSet s.map uid quiz
        kept := addId s.kept quiz.id
        removed := s.removed }
    | some existingQuiz =>
      if keepNewQuiz quiz existingQuiz then
        { map := assocSet s.map uid quiz
          kept := addId (delId s.kept existingQuiz.id) quiz.id
          removed := s.removed ++ [existingQuiz] }
      else
        { s with removed := s.removed ++ [quiz] }

/-- Pass 1 (duplicate `uniqueId`s) of `removeDuplicateQuizzes`. -/
def pass1 (allQuizzes : List Quiz) : P1State :=
  allQuizzes.foldl p1Step { map := [], kept := [], removed := [] }

/-- State of pass 2: `contentHashMap` plus the shared kept/removed sets. -/
structure P2State where
  map : List (ContentHash × Quiz)
  kept : List Nat
  removed : List Quiz

/-- One iteration of the pass-2 loop over `allQuizzes`. -/
def p2Step (s : P2State) (quiz : Quiz) : P2State :=
  if quiz.id ∈ s.kept then
    match jsUid quiz.uniqueId with
    | some _ => s
    | none =>
      let contentHash := createContentHash quiz
      match assocFind s.map contentHash with
      | none => { s with map := assocSet s.map contentHash quiz }
      | some existingQuiz =>
        if keepNewQuiz quiz existingQuiz then
          { map := assocSet s.map contentHash quiz
            kept := addId (delId s.kept existingQuiz.id) quiz.id
            removed := s.removed ++ [existingQuiz] }
        else
          { s with kept := delId s.kept quiz.id, removed := s.removed ++ [quiz] }
  else s

/-- Pass 2 (duplicate content hashes among records without a `uniqueId`). -/
def pass2 (allQuizzes : List Quiz) (kept : List Nat) (removed : List Quiz) : P2State :=
  allQuizzes.foldl p2Step { map := [], kept := kept, removed := removed }

/-- Append a quiz to its normalised-title group in `titleMap`, preserving
first-occurrence order of the keys. -/
def titleMapAdd : List (String × List Quiz) → String → Quiz → List (String × List Quiz)
  | [], t, q => [(t, [q])]
  | (t', g) :: rest, t, q =>
    if t' = t then (t', g ++ [q]) :: rest
    else (t', g) :: titleMapAdd rest t q

/-- The `titleMap` built before pass 3, over records still in
`uniqueQuizIds`. -/
def buildTitleMap (allQuizzes : List Quiz) (kept : List Nat) : List (String × List Quiz) :=
  allQuizzes.foldl
    (fun m quiz =>
      if quiz.id ∈ kept then titleMapAdd m (normStr quiz.title) quiz else m)
    []

/-- The pass-3 pair skip `quiz1.uniqueId && quiz2.uniqueId && quiz1.uniqueId
!== quiz2.uniqueId` (verifiably distinct quizzes). -/
def uidSkip (quiz1 quiz2 : Quiz) : Bool :=
  (jsUid quiz1.uniqueId).isSome && (jsUid quiz2.uniqueId).isSome
    && quiz1.uniqueId ≠ quiz2.uniqueId

/-- Whether one question of `quiz1` matches one of `quiz2` in pass 3: equal
normalised prompts or equal normalised correct answers. -/
def qMatch (q1 q2 : Question) : Bool :=
  normStr q1.question = normStr q2.question
    || normStr q1.correctAnswer = normStr q2.correctAnswer

/-- The pass-3 `matchCount`: for each question of the first quiz, scan the
second quiz's questions and count (at most once, `break` on the first hit)
whether any matches. -/
def p3MatchCount (qs1 qs2 : List Question) : Nat :=
  qs1.foldl (fun n q1 => if qs2.any (fun q2 => qMatch q1 q2) then n + 1 else n) 0

/-- The pass-3 similarity test on a non-skipped pair: question counts differ
by at most 1 (`Math.abs(len1 - len2) <= 1`), and `matchCount >= min(len1,
len2) * 0.8` (see the header note on the float threshold).  The guard
`quiz1.questions && quiz2.questions` is always true on schema-validated
records. -/
def p3Pair (quiz1 quiz2 : Quiz) : Bool :=
  ((quiz1.questions.length : Int) - (quiz2.questions.length : Int)).natAbs ≤ 1
  && 5 * p3MatchCount quiz1.questions quiz2.questions
      ≥ 4 * min quiz1.questions.length quiz2.questions.length

/-- The inner (`j`) loop of pass 3: compare `quiz1` against the remaining
group members; on a duplicate, the tie-break removes one side — removing
`quiz2` continues the loop, removing `quiz1` breaks it. -/
def p3Inner (quiz1 : Quiz) : List Quiz → List Nat → List Quiz → List Nat × List Quiz
  | [], kept, removed => (kept, removed)
  | quiz2 :: rest, kept, removed =>
    if quiz2.id ∈ kept then
      if uidSkip quiz1 quiz2 then p3Inner quiz1 rest kept removed
      else if p3Pair quiz1 quiz2 then
        if keepNewQuiz quiz1 quiz2 then
          p3Inner quiz1 rest (delId kept quiz2.id) (removed ++ [quiz2])
        else
          (delId kept quiz1.id, removed ++ [quiz1])
      else p3Inner quiz1 rest kept removed
    else p3Inner quiz1 rest kept removed

/-- The outer (`i`) loop of pass 3 over one title group. -/
def p3Outer : List Quiz → List Nat → List Quiz → List Nat × List Quiz
  | [], kept, removed => (kept, removed)
  | quiz1 :: rest, kept, removed =>
    if quiz1.id ∈ kept then
      let s := p3Inner quiz1 rest kept removed
      p3Outer rest s.1 s.2
    else p3Outer rest kept removed

/-- Pass 3 (fuzzy similarity inside each shared-title group), threading
`finalUniqueQuizIds` and `duplicatesRemoved` through the groups; groups with
a single member are skipped. -/
def pass3 (groups : List (String × List Quiz)) (kept : List Nat) (removed : List Quiz) :
    List Nat × List Quiz :=
  groups.foldl
    (fun acc g => if g.2.length > 1 then p3Outer g.2 acc.1 acc.2 else acc)
    (kept, removed)

/-- `MemStorage.removeDuplicateQuizzes`: the three passes, then physical
deletion of every record pushed onto `duplicatesRemoved`, returning the
number of successful deletions. -/
def removeDuplicateQuizzes (st : MemStorage) : MemStorage × Nat :=
  let allQuizzes := st.quizzes
  let s1 := pass1 allQuizzes
  let s2 := pass2 allQuizzes s1.kept s1.removed
  let groups := buildTitleMap allQuizzes s2.kept
  let s3 := pass3 groups s2.kept s2.removed
  let res := s3.2.foldl
    (fun (acc : List Quiz × Nat) q =>
      let d := mapDelete acc.1 q.id
      (d.1, if d.2 then acc.2 + 1 else acc.2))
    (st.quizzes, 0)
  ({ st with quizzes := res.1 }, res.2)

/-- Phase 1 of `MemStorage.syncQuizzes`, applied to each public record:
records with a falsy `uniqueId` are skipped; otherwise update the stored
record with that `uniqueId`, or create one. -/
def syncPhase1Step (now : Nat) (st : MemStorage) (p : QuizPayload) : MemStorage :=
  match jsUid p.uniqueId with
  | none => st
  | some uid =>
    match getQuizByUniqueId uid st with
    | some existingQuiz => (updateQuiz existingQuiz.id p st).1
    | none => (createQuiz p now st).1

/-- Phase 2 of `MemStorage.syncQuizzes`, applied to every batch record:
a non-public record with a truthy `uniqueId` deletes the stored record with
that `uniqueId`, when one exists. -/
def syncPhase2Step (st : MemStorage) (p : QuizPayload) : MemStorage :=
  if !p.isPublic then
    match jsUid p.uniqueId with
    | none => st
    | some uid =>
      match getQuizByUniqueId uid st with
      | some existingQuiz =>
        { st with quizzes := (mapDelete st.quizzes existingQuiz.id).1 }
      | none => st
  else st

/-- `MemStorage.syncQuizzes`: process the public records (strict
`quiz.isPublic === true`), then the privacy deletions over the whole batch,
then the unconditional `deletePrivateQuizzes` sweep, and return the public
records. -/
def syncQuizzes (batch : List QuizPayload) (now : Nat) (st : MemStorage) :
    MemStorage × List Quiz :=
  let publicQuizzesToSync := batch.filter (fun p => p.isPublic)
  let st1 := publicQuizzesToSync.foldl (syncPhase1Step now) st
  let st2 := batch.foldl syncPhase2Step st1
  let st3 := (deletePrivateQuizzes st2).1
  (st3, getPublicQuizzes st3)

/-! ### Concrete records used by the example-level theorems -/

/-- A question with a prompt and a correct answer and no options. -/
def mkQ (p a : String) : Question := { question := p, options := [], correctAnswer := a }

/-- First record of the fuzzy-match scenario: title `"Math Quiz"`, five
questions, the newer record (higher version, later creation). -/
def c1A : Quiz :=
  { id := 1
    uniqueId := none
    title := "Math Quiz"
    description := ""
    questions := [mkQ "p1" "a1", mkQ "p2" "a2", mkQ "p3" "a3", mkQ "p4" "a4", mkQ "p5" "a5"]
    isPublic := true
    version := 2
    createdAt := some 100 }

/-- Second record: same normalised title, distinct prompts, and the same
correct answer on four of the five questions. -/
def c1B : Quiz :=
  { id := 2
    uniqueId := none
    title := "math quiz "
    description := ""
    questions := [mkQ "r1" "a1", mkQ "r2" "a2", mkQ "r3" "a3", mkQ "r4" "a4", mkQ "r5" "b5"]
    isPublic := true
    version := 1
    createdAt := some 50 }

/-- Variant of `c1B` sharing only three of the five correct answers. -/
def c1B3 : Quiz :=
  { c1B with
    questions := [mkQ "r1" "a1", mkQ "r2" "a2", mkQ "r3" "a3", mkQ "r4" "c4", mkQ "r5" "b5"] }

def c1St : MemStorage := { quizzes := [c1A, c1B], quizCurrentId := 3, uuidCounter := 0 }

def c1St3 : MemStorage := { quizzes := [c1A, c1B3], quizCurrentId := 3, uuidCounter := 0 }

/-- The empty storage (fresh `MemStorage`). -/
def exEmpty : MemStorage := { quizzes := [], quizCurrentId := 1, uuidCounter := 0 }

/-- A public sync payload for `uniqueId = "u1"` with no version supplied. -/
def exPayA : QuizPayload :=
  { uniqueId := some "u1"
    title := "t1"
    description := ""
    questions := []
    isPublic := true
    version := none
    createdAt := some 10 }

/-- Storage after syncing `[exPayA]` into the empty storage. -/
def exStA : MemStorage := (syncQuizzes [exPayA] 5 exEmpty).1

/-- The record `exStA` holds for `"u1"`. -/
def exRecA : Quiz :=
  { id := 1
    uniqueId := some "u1"
    title := "t1"
    description := ""
    questions := []
    isPublic := true
    version := 1
    createdAt := some 10 }

/-- A second sync payload for `"u1"` with a changed title. -/
def exPayB : QuizPayload := { exPayA with title := "t2", createdAt := some 20 }

/-- Storage after the second sync. -/
def exStB : MemStorage := (syncQuizzes [exPayB] 6 exStA).1

/-- A re-sync payload for `"u1"` carrying a different `createdAt`. -/
def exPayC : QuizPayload := { exPayA with createdAt := some 200 }

/-- An update payload whose optional `createdAt` key is absent. -/
def exPayNoDate : QuizPayload := { exPayA with title := "t3", createdAt := none }

/-- Two stored public records sharing `uniqueId = "u1"` (reachable by
creating the same quiz twice through the create endpoint). -/
def c3A : Quiz :=
  { id := 1
    uniqueId := some "u1"
    title := "a"
    description := ""
    questions := []
    isPublic := true
    version := 1
    createdAt := some 1 }

def c3B : Quiz := { c3A with id := 2 }

def c3St : MemStorage := { quizzes := [c3A, c3B], quizCurrentId := 3, uuidCounter := 0 }

/-- A batch entry marking `"u1"` private. -/
def c3Priv : QuizPayload :=
  { uniqueId := some "u1"
    title := "x"
    description := ""
    questions := []
    isPublic := false
    version := none
    createdAt := none }

/-- Two questions with the same prompt and different correct answers. -/
def c5q1 : Question := { question := "p", options := [], correctAnswer := "x" }

def c5q2 : Question := { question := "p", options := [], correctAnswer := "y" }

def c5A : Quiz :=
  { id := 1
    uniqueId := none
    title := "t"
    description := ""
    questions := [c5q1, c5q2]
    isPublic := true
    version := 1
    createdAt := none }

/-- The same quiz with its questions reversed. -/
def c5B : Quiz := { c5A with questions := [c5q2, c5q1] }

/-- Two questions that differ only in option order. -/
def c5qOpt1 : Question := { question := "q", options := ["o1", "o2"], correctAnswer := "z" }

def c5qOpt2 : Question := { question := "q", options := ["o2", "o1"], correctAnswer := "z" }

/-- Quizzes with distinct prompts, in swapped order. -/
def c5C : Quiz := { c5A with questions := [mkQ "p1" "x", mkQ "p2" "y"] }

def c5D : Quiz := { c5A with questions := [mkQ "p2" "y", mkQ "p1" "x"] }

/-- An empty-questions record with a `uniqueId` and one without: the pair
reaches the pass-3 comparison. -/
def c7A : Quiz :=
  { id := 1
    uniqueId := some "u1"
    title := "t"
    description := ""
    questions := []
    isPublic := true
    version := 1
    createdAt := some 5 }

def c7B : Quiz :=
  { id := 2
    uniqueId := none
    title := "t"
    description := ""
    questions := []
    isPublic := true
    version := 1
    createdAt := some 5 }

/-- A second record with a distinct `uniqueId` and a distinct title. -/
def c10B : Quiz :=
  { id := 2
    uniqueId := some "u2"
    title := "b"
    description := ""
    questions := []
    isPublic := true
    version := 1
    createdAt := some 2 }

/-- A store whose `uniqueId`s and normalised titles are pairwise distinct. -/
def c10St : MemStorage := { quizzes := [c3A, c10B], quizCurrentId := 3, uuidCounter := 0 }

/-- A store holding a single public `"u1"` record, with valid counters. -/
def c3StW : MemStorage := { quizzes := [c3A], quizCurrentId := 2, uuidCounter := 0 }

/-- A store on which the cleanup actually removes a record (the fuzzy-match
pair), used to exercise idempotence concretely. -/
def c6St : MemStorage := { quizzes := [c1A, c1B], quizCurrentId := 3, uuidCounter := 0 }

/-! ### Claim theorems: concrete end-to-end behaviour -/

/-- C1: two stored records with the same normalised title (`"Math Quiz"` /
`"math quiz "`), five questions each and no `uniqueId`s, sharing the
normalised correct answer on exactly four of five questions, are collapsed by
`removeDuplicateQuizzes` to the single newer record (one removal); sharing
only three of five, the cleanup removes neither and leaves the collection
unchanged. -/
theorem c1_fuzzy_match_end_to_end :
    removeDuplicateQuizzes c1St = ({ c1St with quizzes := [c1A] }, 1) ∧
    removeDuplicateQuizzes c1St3 = (c1St3, 0) := by
  decide

/-- C2: syncing a batch with one new public record for `uniqueId = "u1"` and
no version supplied stores it with `version = 1`; re-syncing the same
`uniqueId` with a changed title yields `version = 2` and the new title. -/
theorem c2_sync_then_get_versions :
    (getQuizByUniqueId "u1" exStA).map (fun q => q.version) = some 1 ∧
    (getQuizByUniqueId "u1" exStB).map (fun q => q.version) = some 2 ∧
    (getQuizByUniqueId "u1" exStB).map (fun q => q.title) = some "t2" := by
  decide

/-- C4: the tie-break used by all three deduplication passes (the shared
definition `keepNewQuiz`, a pure function of the two candidate records) keeps
the first record exactly when both versions are present (non-zero) and the
first is strictly larger, or else when both creation dates are present and
the first is strictly later; in every other case it keeps the second. -/
theorem c4_tiebreak_characterisation (A B : Quiz) :
    keepNewQuiz A B = true ↔
      (A.version ≠ 0 ∧ B.version ≠ 0 ∧ A.version > B.version) ∨
      (∃ ta tb, A.createdAt = some ta ∧ B.createdAt = some tb ∧ ta > tb) := by
  cases hA : A.createdAt <;> cases hB : B.createdAt <;>
    simp [keepNewQuiz, hA, hB, and_assoc]

/-- C8 counterexample: in the pass-3 similarity count, one question of the
second quiz can be counted for several matches: with two first-quiz questions
both carrying correct answer `"a"` and a single second-quiz question with
correct answer `"a"`, `matchCount = 2` exceeds the second quiz's question
count 1. -/
theorem c8_counterexample :
    ¬ (p3MatchCount [mkQ "p1" "a", mkQ "p2" "a"] [mkQ "q" "a"]
        ≤ ([mkQ "q" "a"] : List Question).length) := by
  decide

/-- C8 amended: each question of the first quiz contributes at most one match
(the inner loop breaks after the first hit), so the pass-3 `matchCount` never
exceeds the first quiz's question count; nothing bounds it by the second
quiz's count. -/
theorem c8_matchcount_le_first (qs1 qs2 : List Question) :
    p3MatchCount qs1 qs2 ≤ qs1.length := by
  have aux : ∀ (l : List Question) (n : Nat),
      l.foldl (fun n q1 => if qs2.any (fun q2 => qMatch q1 q2) then n + 1 else n) n
        ≤ n + l.length := by
    intro l
    induction l with
    | nil => intro n; simp
    | cons q t ih =>
      intro n
      simp only [List.foldl_cons, List.length_cons]
      by_cases h : qs2.any (fun q2 => qMatch q q2)
      · rw [if_pos h]
        calc List.foldl _ (n + 1) t ≤ (n + 1) + t.length := ih (n + 1)
          _ = n + (t.length + 1) := by omega
      · rw [if_neg h]
        calc List.foldl _ n t ≤ n + t.length := ih n
          _ ≤ n + (t.length + 1) := by omega
  simpa [p3MatchCount] using aux qs1 0

/-- C9 counterexample: the record for `"u1"` is created with
`createdAt = 10`, but a sync update whose payload carries `createdAt = 200`
overwrites the stored creation date (the update spread copies the supplied
`createdAt`). -/
theorem c9_counterexample :
    (getQuizByUniqueId "u1" exStA).map (fun q => q.createdAt) = some (some 10) ∧
    (getQuizByUniqueId "u1" ((syncQuizzes [exPayC] 6 exStA).1)).map (fun q => q.createdAt)
      = some (some 200) := by
  decide

/-- C9 amended: `updateQuiz` keeps the stored `createdAt` exactly when the
update payload omits the field, and otherwise replaces it with the payload
value; sync batches processed by the route always supply a `createdAt`. -/
theorem c9_update_createdat (st : MemStorage) (i : Nat) (p : QuizPayload) (ex : Quiz)
    (h : getQuiz i st = some ex) :
    ((updateQuiz i p st).2).map (fun q => q.createdAt)
      = some (match p.createdAt with | some t => some t | none => ex.createdAt) := by
  unfold updateQuiz
  rw [h]
  rfl

/-- C9 amended, witnessed at a concrete input: updating `"u1"` with a payload
that omits `createdAt` preserves the stored value `some 10`. -/
theorem c9_update_createdat_witness :
    ((updateQuiz 1 exPayNoDate exStA).2).map (fun q => q.createdAt) = some (some 10) := by
  have h := c9_update_createdat exStA 1 exPayNoDate exRecA (by decide)
  simpa using h

/-- C7 counterexample: two kept records with empty `questions` arrays and the
same normalised title (one with a `uniqueId`, one without, so the pair is not
skipped) ARE marked as duplicates by pass 3: the first of the pair is removed
by the tie-break. -/
theorem c7_counterexample :
    pass3 [("t", [c7A, c7B])] [1, 2] [] = ([2], [c7A]) := by
  decide

/-- C7 amended: for a pair of records that both have empty `questions`
arrays, the pass-3 similarity test succeeds (`matchCount = 0` is `≥` the
threshold `0.8 × 0 = 0`), so such a pair is deduplicated by pass 3 whenever
it is compared; identical pass-2 fingerprints are not required. -/
theorem c7_empty_questions_pass3 (q1 q2 : Quiz)
    (h1 : q1.questions = []) (h2 : q2.questions = []) :
    p3Pair q1 q2 = true := by
  simp [p3Pair, h1, h2, p3MatchCount]

/-- C7 amended, witnessed at a concrete input. -/
theorem c7_empty_questions_pass3_witness : p3Pair c7A c7B = true :=
  c7_empty_questions_pass3 c7A c7B rfl rfl

/-- C5 counterexample: reversing the questions of a quiz whose two questions
share a prompt but differ in correct answer changes the fingerprint, because
the `questionsData` sort compares prompts only and is stable: the claim's
invariance under permuting questions fails. -/
theorem c5_counterexample :
    c5B.questions = c5A.questions.reverse ∧
    normStr c5A.title = normStr c5B.title ∧
    c5A.questions.length = c5B.questions.length ∧
    createContentHash c5A ≠ createContentHash c5B := by
  decide

/-! ### Order lemmas for the comparator used by `createContentHash` -/

theorem ltCharList_asymm : ∀ (l1 l2 : List Char),
    ltCharList l1 l2 = true → ltCharList l2 l1 = false
  | _, [], h => by simp [ltCharList] at h
  | [], _ :: _, _ => rfl
  | a :: as, b :: bs, h => by
    simp only [ltCharList] at h ⊢
    by_cases hab : a < b
    · have hba : ¬ b < a := lt_asymm hab
      rw [if_neg hba, if_pos hab]
    · rw [if_neg hab] at h
      by_cases hba : b < a
      · rw [if_pos hba] at h
        exact absurd h (by simp)
      · rw [if_neg hba] at h
        rw [if_neg hba, if_neg hab]
        exact ltCharList_asymm as bs h

theorem ltCharList_connex : ∀ (l1 l2 : List Char),
    ltCharList l1 l2 = false → ltCharList l2 l1 = false → l1 = l2
  | [], [], _, _ => rfl
  | [], _ :: _, h1, _ => by simp [ltCharList] at h1
  | _ :: _, [], _, h2 => by simp [ltCharList] at h2
  | a :: as, b :: bs, h1, h2 => by
    simp only [ltCharList] at h1 h2
    by_cases hab : a < b
    · rw [if_pos hab] at h1
      exact absurd h1 (by simp)
    · by_cases hba : b < a
      · rw [if_pos hba] at h2
        exact absurd h2 (by simp)
      · rw [if_neg hab, if_neg hba] at h1
        rw [if_neg hba, if_neg hab] at h2
        have hhead : a = b := le_antisymm (not_lt.mp hba) (not_lt.mp hab)
        have htail := ltCharList_connex as bs h1 h2
        rw [hhead, htail]

theorem ltCharList_trans : ∀ (l1 l2 l3 : List Char),
    ltCharList l1 l2 = true → ltCharList l2 l3 = true → ltCharList l1 l3 = true
  | _, [], _, h1, _ => by simp [ltCharList] at h1
  | _, _ :: _, [], _, h2 => by simp [ltCharList] at h2
  | [], _ :: _, _ :: _, _, _ => rfl
  | a :: as, b :: bs, c :: cs, h1, h2 => by
    simp only [ltCharList] at h1 h2 ⊢
    rcases lt_trichotomy a b with hab | hab | hab
    · rcases lt_trichotomy b c with hbc | hbc | hbc
      · rw [if_pos (lt_trans hab hbc)]
      · subst hbc
        rw [if_pos hab]
      · rw [if_neg (lt_asymm hbc), if_pos hbc] at h2
        cases h2
    · subst hab
      rcases lt_trichotomy a c with hac | hac | hac
      · rw [if_pos hac]
      · subst hac
        simp only [if_neg (lt_irrefl a)] at h1 h2 ⊢
        exact ltCharList_trans as bs cs h1 h2
      · rw [if_neg (lt_asymm hac), if_pos hac] at h2
        cases h2
    · rw [if_neg (lt_asymm hab), if_pos hab] at h1
      cases h1

theorem strEq_of_not_lt {a b : String} (h1 : strLtB a b = false) (h2 : strLtB b a = false) :
    a = b := by
  cases a with
  | mk da =>
    cases b with
    | mk db =>
      have := ltCharList_connex da db h1 h2
      rw [this]

instance : IsTotal String strLeR :=
  ⟨by
    intro a b
    unfold strLeR strLtB
    cases hv : ltCharList b.data a.data
    · left; rfl
    · right; exact ltCharList_asymm b.data a.data hv⟩

instance : IsTrans String strLeR :=
  ⟨by
    intro a b c hab hbc
    unfold strLeR strLtB at hab hbc ⊢
    cases hv : ltCharList c.data a.data
    · rfl
    · exfalso
      cases hw : ltCharList a.data b.data
      · have heq : a.data = b.data := ltCharList_connex a.data b.data hw hab
        rw [heq] at hv
        rw [hbc] at hv
        exact Bool.noConfusion hv
      · have htr := ltCharList_trans c.data a.data b.data hv hw
        rw [hbc] at htr
        exact Bool.noConfusion htr⟩

instance : IsAntisymm String strLeR :=
  ⟨fun _ _ h1 h2 => strEq_of_not_lt h2 h1⟩

instance : IsTotal QData qdataLeR :=
  ⟨by
    intro a b
    unfold qdataLeR strLtB
    cases hv : ltCharList b.question.data a.question.data
    · left; rfl
    · right; exact ltCharList_asymm _ _ hv⟩

instance : IsTrans QData qdataLeR :=
  ⟨by
    intro a b c hab hbc
    unfold qdataLeR strLtB at hab hbc ⊢
    cases hv : ltCharList c.question.data a.question.data
    · rfl
    · exfalso
      cases hw : ltCharList a.question.data b.question.data
      · have heq : a.question.data = b.question.data := ltCharList_connex _ _ hw hab
        rw [heq] at hv
        rw [hv] at hbc
        cases hbc
      · have := ltCharList_trans _ _ _ hv hw
        rw [this] at hbc
        cases hbc⟩

/-- Sorting with the string comparator is invariant under permutation of the
input (used for the per-question option sort). -/
theorem insertionSort_strLeR_perm_eq {l1 l2 : List String} (h : l1.Perm l2) :
    List.insertionSort strLeR l1 = List.insertionSort strLeR l2 :=
  List.eq_of_perm_of_sorted
    ((List.perm_insertionSort strLeR l1).trans (h.trans (List.perm_insertionSort strLeR l2).symm))
    (List.sorted_insertionSort strLeR l1) (List.sorted_insertionSort strLeR l2)

/-- Two sorted-by-prompt `questionsData` lists that are permutations of each
other and have pairwise distinct prompts are equal (the comparator reads only
the prompt, so distinct prompts make the sorted order unique). -/
theorem qdata_sorted_key_eq : ∀ (l1 l2 : List QData), l1.Perm l2 →
    l1.Sorted qdataLeR → l2.Sorted qdataLeR →
    (l1.map (fun d => d.question)).Nodup → l1 = l2
  | [], l2, hp, _, _, _ => hp.nil_eq
  | a :: t1, l2, hp, hs1, hs2, hnd => by
    cases l2 with
    | nil => exact absurd (hp.symm.nil_eq).symm (by simp)
    | cons b t2 =>
      have hab : a = b := by
        have ha2 : a ∈ b :: t2 := hp.mem_iff.mp (List.mem_cons_self a t1)
        rcases List.mem_cons.mp ha2 with h | h
        · exact h
        · have hba : qdataLeR b a := (List.sorted_cons.mp hs2).1 a h
          have hb1 : b ∈ a :: t1 := hp.mem_iff.mpr (List.mem_cons_self b t2)
          rcases List.mem_cons.mp hb1 with h2 | h2
          · exact h2.symm
          · have hab' : qdataLeR a b := (List.sorted_cons.mp hs1).1 b h2
            have hq : a.question = b.question := strEq_of_not_lt hba hab'
            exfalso
            have hmem : a.question ∈ t1.map (fun d => d.question) := by
              rw [hq]
              exact List.mem_map_of_mem _ h2
            exact (List.nodup_cons.mp hnd).1 hmem
      subst hab
      have hp' := hp.cons_inv
      have ih := qdata_sorted_key_eq t1 t2 hp' (List.sorted_cons.mp hs1).2
        (List.sorted_cons.mp hs2).2 (List.nodup_cons.mp hnd).2
      rw [ih]

/-- C5 amended: (1) the fingerprint's per-question record is invariant under
permuting the options within a question (they are normalised, sorted and
joined); (2) two quizzes with the same normalised title and the same multiset
of per-question records get identical fingerprints provided the normalised
prompts are pairwise distinct (with duplicated prompts the stable sort keys
only on the prompt and the claim fails, see the counterexample). -/
theorem c5_fingerprint_invariance :
    (∀ a b : Question, a.question = b.question → a.correctAnswer = b.correctAnswer →
      a.options.Perm b.options → tupleOf a = tupleOf b) ∧
    (∀ q1 q2 : Quiz, normStr q1.title = normStr q2.title →
      (q1.questions.map tupleOf).Perm (q2.questions.map tupleOf) →
      ((q1.questions.map tupleOf).map (fun d => d.question)).Nodup →
      createContentHash q1 = createContentHash q2) := by
  constructor
  · intro a b hq hc hopt
    simp only [tupleOf, QData.mk.injEq]
    refine ⟨by rw [hq], ?_, by rw [hc]⟩
    have hperm : (a.options.map normStr).Perm (b.options.map normStr) := hopt.map normStr
    rw [insertionSort_strLeR_perm_eq hperm]
  · intro q1 q2 ht hperm hnd
    simp only [createContentHash, ContentHash.mk.injEq]
    refine ⟨ht, hperm.length_eq, ?_⟩
    refine qdata_sorted_key_eq _ _ ?_ ?_ ?_ ?_
    · exact (List.perm_insertionSort qdataLeR _).trans
        (hperm.trans (List.perm_insertionSort qdataLeR _).symm)
    · exact List.sorted_insertionSort qdataLeR _
    · exact List.sorted_insertionSort qdataLeR _
    · have hp2 : ((List.insertionSort qdataLeR (q1.questions.map tupleOf)).map
          (fun d => d.question)).Perm
          ((q1.questions.map tupleOf).map (fun d => d.question)) :=
        (List.perm_insertionSort qdataLeR _).map _
      exact hp2.nodup_iff.mpr hnd

/-- C5 amended, witnessed at concrete inputs: permuted options give the same
per-question record, and a quiz with two distinct-prompt questions keeps its
fingerprint when its questions are swapped. -/
theorem c5_fingerprint_invariance_witness :
    tupleOf c5qOpt1 = tupleOf c5qOpt2 ∧ createContentHash c5C = createContentHash c5D :=
  ⟨c5_fingerprint_invariance.1 c5qOpt1 c5qOpt2 rfl rfl (by decide),
   c5_fingerprint_invariance.2 c5C c5D rfl (by decide) (by decide)⟩

theorem mem_addId {s : List Nat} {i j : Nat} : j ∈ addId s i ↔ j ∈ s ∨ j = i := by
  unfold addId
  by_cases h : i ∈ s
  · rw [if_pos h]
    constructor
    · exact Or.inl
    · rintro (hj | rfl)
      · exact hj
      · exact h
  · rw [if_neg h]
    simp

theorem assocFind_assocSet {κ : Type} [DecidableEq κ] :
    ∀ (m : List (κ × Quiz)) (k k' : κ) (v : Quiz),
      assocFind (assocSet m k v) k' = if k' = k then some v else assocFind m k'
  | [], k, k', v => by
    by_cases h : k' = k
    · subst h
      simp [assocSet, assocFind]
    · simp [assocSet, assocFind, h, Ne.symm h]
  | e :: rest, k, k', v => by
    by_cases he : e.1 = k
    · by_cases h : k' = k
      · subst h
        simp [assocSet, if_pos he, assocFind]
      · simp only [assocSet, if_pos he, assocFind, List.find?_cons]
        have h1 : (decide (k = k')) = false := by simp [Ne.symm h]
        have h2 : (decide (e.1 = k')) = false := by simp [he ▸ Ne.symm h]
        rw [h1, if_neg h]
        simp only [List.find?_cons, h2]
    · by_cases h : k' = k
      · subst h
        simp only [assocSet, if_neg he, assocFind, List.find?_cons]
        have h2 : (decide (e.1 = k')) = false := by simp [he]
        rw [h2]
        have ih := assocFind_assocSet rest k' k' v
        rw [if_pos rfl] at ih
        simpa [assocFind] using ih
      · simp only [assocSet, if_neg he, assocFind, List.find?_cons]
        by_cases h3 : e.1 = k'
        · rw [if_neg h]
          simp [h3]
        · have h2 : (decide (e.1 = k')) = false := by simp [h3]
          rw [h2, if_neg h]
          have ih := assocFind_assocSet rest k k' v
          rw [if_neg h] at ih
          simpa [assocFind] using ih

theorem pass1_fold_fresh : ∀ (l : List Quiz) (s : P1State),
    (l.filterMap (fun q => jsUid q.uniqueId)).Nodup →
    (∀ u, (assocFind s.map u).isSome = true → u ∉ l.filterMap (fun q => jsUid q.uniqueId)) →
    (List.foldl p1Step s l).removed = s.removed ∧
    (∀ j, j ∈ (List.foldl p1Step s l).kept ↔ j ∈ s.kept ∨ j ∈ l.map (fun q => q.id))
  | [], s, _, _ => by
    constructor
    · rfl
    · intro j
      simp
  | q :: t, s, hnd, hfresh => by
    rw [List.foldl_cons]
    cases hu : jsUid q.uniqueId with
    | none =>
      have hstep : p1Step s q = { s with kept := addId s.kept q.id } := by
        unfold p1Step
        rw [hu]
      have hnd' : (t.filterMap (fun q => jsUid q.uniqueId)).Nodup := by
        rw [List.filterMap_cons, hu] at hnd
        exact hnd
      have hfresh' : ∀ u, (assocFind ({ s with kept := addId s.kept q.id } : P1State).map u).isSome = true →
          u ∉ t.filterMap (fun q => jsUid q.uniqueId) := by
        intro u hin
        have := hfresh u hin
        rw [List.filterMap_cons, hu] at this
        exact this
      rw [hstep]
      obtain ⟨hr, hk⟩ := pass1_fold_fresh t
        { map := s.map, kept := addId s.kept q.id, removed := s.removed } hnd' hfresh'
      refine ⟨hr, ?_⟩
      intro j
      rw [hk j]
      simp only [mem_addId, List.map_cons, List.mem_cons]
      tauto
    | some u =>
      have hmemu : u ∈ (q :: t).filterMap (fun q => jsUid q.uniqueId) := by
        rw [List.filterMap_cons, hu]
        exact List.mem_cons_self _ _
      have hnone : assocFind s.map u = none := by
        cases hf : assocFind s.map u with
        | none => rfl
        | some w =>
          exact absurd hmemu (hfresh u (by rw [hf]; rfl))
      have hstep : p1Step s q =
          { map := assocSet s.map u q, kept := addId s.kept q.id, removed := s.removed } := by
        unfold p1Step
        rw [hu]
        dsimp only
        rw [hnone]
      have hcons : (q :: t).filterMap (fun q => jsUid q.uniqueId)
          = u :: t.filterMap (fun q => jsUid q.uniqueId) := by
        rw [List.filterMap_cons, hu]
      rw [hcons] at hnd
      have hunotint : u ∉ t.filterMap (fun q => jsUid q.uniqueId) := (List.nodup_cons.mp hnd).1
      have hnd' := (List.nodup_cons.mp hnd).2
      have hfresh' : ∀ u', (assocFind (assocSet s.map u q) u').isSome = true →
          u' ∉ t.filterMap (fun q => jsUid q.uniqueId) := by
        intro u' hin
        rw [assocFind_assocSet] at hin
        by_cases he : u' = u
        · subst he
          exact hunotint
        · rw [if_neg he] at hin
          have := hfresh u' hin
          rw [hcons] at this
          intro hmem
          exact this (List.mem_cons_of_mem _ hmem)
      rw [hstep]
      obtain ⟨hr, hk⟩ := pass1_fold_fresh t
        { map := assocSet s.map u q, kept := addId s.kept q.id, removed := s.removed } hnd' hfresh'
      refine ⟨hr, ?_⟩
      intro j
      rw [hk j]
      simp only [mem_addId, List.map_cons, List.mem_cons]
      tauto

theorem pass2_fold_fresh : ∀ (l : List Quiz) (s : P2State),
    List.Pairwise (fun q q' => q.id ∈ s.kept → q'.id ∈ s.kept →
      jsUid q.uniqueId = none → jsUid q'.uniqueId = none →
      createContentHash q ≠ createContentHash q') l →
    (∀ h, (assocFind s.map h).isSome = true →
      ∀ q ∈ l, q.id ∈ s.kept → jsUid q.uniqueId = none → createContentHash q ≠ h) →
    (List.foldl p2Step s l).kept = s.kept ∧ (List.foldl p2Step s l).removed = s.removed
  | [], s, _, _ => ⟨rfl, rfl⟩
  | q :: t, s, hpw, hfresh => by
    rw [List.foldl_cons]
    by_cases hq : q.id ∈ s.kept
    · cases hu : jsUid q.uniqueId with
      | some u =>
        have hstep : p2Step s q = s := by
          unfold p2Step
          rw [if_pos hq, hu]
        rw [hstep]
        exact pass2_fold_fresh t s (List.pairwise_cons.mp hpw).2
          (fun h hin q' hq' => hfresh h hin q' (List.mem_cons_of_mem _ hq'))
      | none =>
        have hnone : assocFind s.map (createContentHash q) = none := by
          cases hf : assocFind s.map (createContentHash q) with
          | none => rfl
          | some w =>
            exact absurd rfl
              (hfresh (createContentHash q) (by rw [hf]; rfl) q (List.mem_cons_self _ _) hq hu)
        have hstep : p2Step s q = { s with map := assocSet s.map (createContentHash q) q } := by
          unfold p2Step
          rw [if_pos hq, hu]
          dsimp only
          rw [hnone]
        rw [hstep]
        have hpw' := (List.pairwise_cons.mp hpw).2
        have hhead := (List.pairwise_cons.mp hpw).1
        refine pass2_fold_fresh t { s with map := assocSet s.map (createContentHash q) q }
          hpw' ?_
        intro h hin q' hq' hkept' hu'
        rw [assocFind_assocSet] at hin
        by_cases he : h = createContentHash q
        · subst he
          exact fun hcontra => (hhead q' hq' hq hkept' hu hu') hcontra.symm
        · rw [if_neg he] at hin
          exact hfresh h hin q' (List.mem_cons_of_mem _ hq') hkept' hu'
    · have hstep : p2Step s q = s := by
        unfold p2Step
        rw [if_neg hq]
      rw [hstep]
      exact pass2_fold_fresh t s (List.pairwise_cons.mp hpw).2
        (fun h hin q' hq' => hfresh h hin q' (List.mem_cons_of_mem _ hq'))

theorem titleMapAdd_fresh : ∀ (m : List (String × List Quiz)) (t : String) (q : Quiz),
    (∀ e ∈ m, e.1 ≠ t) → titleMapAdd m t q = m ++ [(t, [q])]
  | [], t, q, _ => rfl
  | e :: rest, t, q, h => by
    cases e with
    | mk t' g =>
      have hne : t' ≠ t := h (t', g) (List.mem_cons_self _ _)
      simp only [titleMapAdd, if_neg hne, List.cons_append, List.cons.injEq, true_and]
      exact titleMapAdd_fresh rest t q (fun e he => h e (List.mem_cons_of_mem _ he))

theorem buildTitleMap_fold_short (kept : List Nat) :
    ∀ (l : List Quiz) (m : List (String × List Quiz)),
    (l.map (fun q => normStr q.title)).Nodup →
    (∀ e ∈ m, e.2.length ≤ 1) →
    (∀ e ∈ m, e.1 ∉ l.map (fun q => normStr q.title)) →
    ∀ e ∈ List.foldl
      (fun m quiz => if quiz.id ∈ kept then titleMapAdd m (normStr quiz.title) quiz else m)
      m l, e.2.length ≤ 1
  | [], m, _, hshort, _ => by
    intro e he
    exact hshort e he
  | q :: t, m, hnd, hshort, hfar => by
    rw [List.foldl_cons]
    rw [List.map_cons] at hnd
    have hndt := (List.nodup_cons.mp hnd).2
    have hqt : normStr q.title ∉ t.map (fun q => normStr q.title) :=
      (List.nodup_cons.mp hnd).1
    by_cases hq : q.id ∈ kept
    · rw [if_pos hq]
      have hfreshq : ∀ e ∈ m, e.1 ≠ normStr q.title := by
        intro e he
        have := hfar e he
        simp only [List.map_cons, List.mem_cons] at this
        exact fun hc => this (Or.inl hc)
      rw [titleMapAdd_fresh m _ q hfreshq]
      refine buildTitleMap_fold_short kept t (m ++ [(normStr q.title, [q])]) hndt ?_ ?_
      · intro e he
        rcases List.mem_append.mp he with h | h
        · exact hshort e h
        · simp only [List.mem_singleton] at h
          subst h
          simp
      · intro e he
        rcases List.mem_append.mp he with h | h
        · have := hfar e h
          simp only [List.map_cons, List.mem_cons] at this
          intro hc
          exact this (Or.inr hc)
        · simp only [List.mem_singleton] at h
          subst h
          exact hqt
    · rw [if_neg hq]
      refine buildTitleMap_fold_short kept t m hndt hshort ?_
      intro e he
      have := hfar e he
      simp only [List.map_cons, List.mem_cons] at this
      exact fun hc => this (Or.inr hc)

theorem p3Inner_noop : ∀ (rest : List Quiz) (q1 : Quiz) (kept : List Nat) (removed : List Quiz),
    (∀ q2 ∈ rest, q2.id ∈ kept → uidSkip q1 q2 = true ∨ p3Pair q1 q2 = false) →
    p3Inner q1 rest kept removed = (kept, removed)
  | [], _, _, _, _ => rfl
  | q2 :: rest, q1, kept, removed, h => by
    unfold p3Inner
    by_cases hk : q2.id ∈ kept
    · rw [if_pos hk]
      rcases h q2 (List.mem_cons_self _ _) hk with hs | hp
      · rw [hs]
        simp only [if_true]
        exact p3Inner_noop rest q1 kept removed
          (fun q hq => h q (List.mem_cons_of_mem _ hq))
      · by_cases hs : uidSkip q1 q2 = true
        · rw [hs]
          simp only [if_true]
          exact p3Inner_noop rest q1 kept removed
            (fun q hq => h q (List.mem_cons_of_mem _ hq))
        · rw [Bool.not_eq_true] at hs
          rw [hs, hp]
          simp only [Bool.false_eq_true, if_false]
          exact p3Inner_noop rest q1 kept removed
            (fun q hq => h q (List.mem_cons_of_mem _ hq))
    · rw [if_neg hk]
      exact p3Inner_noop rest q1 kept removed
        (fun q hq => h q (List.mem_cons_of_mem _ hq))

theorem p3Outer_noop : ∀ (g : List Quiz) (kept : List Nat) (removed : List Quiz),
    List.Pairwise (fun q1 q2 => q1.id ∈ kept → q2.id ∈ kept →
      uidSkip q1 q2 = true ∨ p3Pair q1 q2 = false) g →
    p3Outer g kept removed = (kept, removed)
  | [], _, _, _ => rfl
  | q1 :: rest, kept, removed, h => by
    unfold p3Outer
    have hpc := List.pairwise_cons.mp h
    by_cases hk : q1.id ∈ kept
    · rw [if_pos hk]
      rw [p3Inner_noop rest q1 kept removed (fun q2 hq2 hk2 => hpc.1 q2 hq2 hk hk2)]
      exact p3Outer_noop rest kept removed hpc.2
    · rw [if_neg hk]
      exact p3Outer_noop rest kept removed hpc.2

theorem pairwise_of_short {R : Quiz → Quiz → Prop} :
    ∀ (g : List Quiz), g.length ≤ 1 → List.Pairwise R g
  | [], _ => List.Pairwise.nil
  | [q], _ => by simp
  | q :: q' :: t, h => by simp at h

theorem pass3_noop : ∀ (groups : List (String × List Quiz)) (kept : List Nat)
    (removed : List Quiz),
    (∀ g ∈ groups, List.Pairwise (fun q1 q2 => q1.id ∈ kept → q2.id ∈ kept →
      uidSkip q1 q2 = true ∨ p3Pair q1 q2 = false) g.2) →
    pass3 groups kept removed = (kept, removed)
  | [], _, _, _ => rfl
  | g :: groups, kept, removed, h => by
    unfold pass3
    rw [List.foldl_cons]
    by_cases hlen : g.2.length > 1
    · rw [if_pos hlen]
      rw [p3Outer_noop g.2 kept removed (h g (List.mem_cons_self _ _))]
      exact pass3_noop groups kept removed (fun g' hg' => h g' (List.mem_cons_of_mem _ hg'))
    · rw [if_neg hlen]
      exact pass3_noop groups kept removed (fun g' hg' => h g' (List.mem_cons_of_mem _ hg'))

theorem createContentHash_title (q : Quiz) : (createContentHash q).title = normStr q.title := rfl

/-- C10: on a store whose truthy `uniqueId`s are pairwise distinct and whose
normalised titles are pairwise distinct, `removeDuplicateQuizzes` removes
nothing: pass 1 never sees a repeated `uniqueId`, pass 2 never sees a
repeated fingerprint (the fingerprint embeds the normalised title), pass 3's
title groups are singletons, so the removal list stays empty and the store is
returned unchanged with count 0. -/
theorem c10_distinct_keys_noop (st : MemStorage)
    (hu : (st.quizzes.filterMap (fun q => jsUid q.uniqueId)).Nodup)
    (ht : (st.quizzes.map (fun q => normStr q.title)).Nodup) :
    removeDuplicateQuizzes st = (st, 0) := by
  have h1 := pass1_fold_fresh st.quizzes { map := [], kept := [], removed := [] } hu
    (by
      intro u hin
      simp [assocFind] at hin)
  have hpw : List.Pairwise (fun q q' => q.id ∈ (pass1 st.quizzes).kept →
      q'.id ∈ (pass1 st.quizzes).kept → jsUid q.uniqueId = none → jsUid q'.uniqueId = none →
      createContentHash q ≠ createContentHash q') st.quizzes := by
    have hpairs : List.Pairwise (fun q q' => normStr q.title ≠ normStr q'.title) st.quizzes :=
      List.pairwise_map.mp ht
    exact hpairs.imp (by
      intro q q' hne _ _ _ _ hc
      exact hne (congrArg ContentHash.title hc))
  have h2 := pass2_fold_fresh st.quizzes
    { map := [], kept := (pass1 st.quizzes).kept, removed := (pass1 st.quizzes).removed }
    hpw
    (by
      intro h hin
      simp [assocFind] at hin)
  have hgroups := buildTitleMap_fold_short (pass2 st.quizzes (pass1 st.quizzes).kept
      (pass1 st.quizzes).removed).kept st.quizzes [] ht (by intro e he; cases he)
      (by intro e he; cases he)
  have h3 := pass3_noop (buildTitleMap st.quizzes (pass2 st.quizzes (pass1 st.quizzes).kept
      (pass1 st.quizzes).removed).kept)
    (pass2 st.quizzes (pass1 st.quizzes).kept (pass1 st.quizzes).removed).kept
    (pass2 st.quizzes (pass1 st.quizzes).kept (pass1 st.quizzes).removed).removed
    (by
      intro g hg
      exact pairwise_of_short g.2 (hgroups g hg))
  have hrem : (pass3 (buildTitleMap st.quizzes (pass2 st.quizzes (pass1 st.quizzes).kept
      (pass1 st.quizzes).removed).kept)
      (pass2 st.quizzes (pass1 st.quizzes).kept (pass1 st.quizzes).removed).kept
      (pass2 st.quizzes (pass1 st.quizzes).kept (pass1 st.quizzes).removed).removed).2 = [] := by
    rw [h3]
    have : (pass2 st.quizzes (pass1 st.quizzes).kept (pass1 st.quizzes).removed).removed
        = (pass1 st.quizzes).removed := h2.2
    rw [this]
    exact h1.1
  unfold removeDuplicateQuizzes
  dsimp only
  rw [hrem]
  rfl

/-- C10, witnessed at a concrete two-record store with distinct `uniqueId`s
and distinct normalised titles. -/
theorem c10_distinct_keys_noop_witness : removeDuplicateQuizzes c10St = (c10St, 0) :=
  c10_distinct_keys_noop c10St (by decide) (by decide)

theorem mapDelete_eq_filter : ∀ (l : List Quiz) (i : Nat), (l.map (fun q => q.id)).Nodup →
    (mapDelete l i).1 = l.filter (fun q => q.id ≠ i)
  | [], _, _ => rfl
  | q :: rest, i, hnd => by
    rw [List.map_cons] at hnd
    obtain ⟨hq, hnd'⟩ := List.nodup_cons.mp hnd
    by_cases h : q.id = i
    · simp only [mapDelete, if_pos h, List.filter_cons]
      have : (decide (q.id ≠ i)) = false := by simp [h]
      rw [this]
      subst h
      have : rest.filter (fun q' => q'.id ≠ q.id) = rest := by
        rw [List.filter_eq_self]
        intro a ha
        simp only [ne_eq, decide_eq_true_eq]
        intro hc
        exact hq (hc ▸ List.mem_map_of_mem (fun q => q.id) ha)
      rw [this]
      simp
    · simp only [mapDelete, if_neg h, List.filter_cons]
      have : (decide (q.id ≠ i)) = true := by simp [h]
      rw [this]
      rw [mapDelete_eq_filter rest i hnd']
      simp

theorem mapDelete_sublist : ∀ (l : List Quiz) (i : Nat), (mapDelete l i).1.Sublist l
  | [], _ => List.Sublist.refl _
  | q :: rest, i => by
    by_cases h : q.id = i
    · simp only [mapDelete, if_pos h]
      exact List.sublist_cons_self _ _
    · simp only [mapDelete, if_neg h]
      exact List.Sublist.cons₂ q (mapDelete_sublist rest i)

theorem delFold_eq_filter : ∀ (ps l : List Quiz) (n : Nat), (l.map (fun q => q.id)).Nodup →
    (ps.foldl (fun (acc : List Quiz × Nat) q =>
        let d := mapDelete acc.1 q.id
        (d.1, if d.2 then acc.2 + 1 else acc.2)) (l, n)).1
      = l.filter (fun q => !(ps.any (fun p => p.id = q.id)))
  | [], l, n, _ => by
    simp
  | p :: ps, l, n, hnd => by
    rw [List.foldl_cons]
    have hstep : (mapDelete l p.id).1 = l.filter (fun q => q.id ≠ p.id) :=
      mapDelete_eq_filter l p.id hnd
    have hnd' : ((l.filter (fun q => q.id ≠ p.id)).map (fun q => q.id)).Nodup :=
      List.Nodup.sublist (List.Sublist.map _ (List.filter_sublist l)) hnd
    have ih := delFold_eq_filter ps (l.filter (fun q => q.id ≠ p.id))
      (if (mapDelete l p.id).2 then n + 1 else n) hnd'
    simp only [hstep] at ih ⊢
    rw [ih, List.filter_filter]
    refine List.filter_congr ?_
    intro q _
    simp only [List.any_cons, Bool.not_or, Bool.and_comm]
    cases hd : decide (p.id = q.id) <;> cases ha : ps.any (fun p' => p'.id = q.id) <;>
      simp_all [ne_comm]

theorem id_inj_of_nodup {l : List Quiz} (hnd : (l.map (fun q => q.id)).Nodup)
    {p q : Quiz} (hp : p ∈ l) (hq : q ∈ l) (h : p.id = q.id) : p = q :=
  List.inj_on_of_nodup_map hnd hp hq h

theorem deletePrivate_eq_filter (st : MemStorage)
    (hnd : (st.quizzes.map (fun q => q.id)).Nodup) :
    (deletePrivateQuizzes st).1.quizzes = st.quizzes.filter (fun q => q.isPublic) := by
  unfold deletePrivateQuizzes
  dsimp only
  rw [delFold_eq_filter (st.quizzes.filter (fun q => !q.isPublic)) st.quizzes 0 hnd]
  refine List.filter_congr ?_
  intro q hq
  cases hpub : q.isPublic
  · have hmem : q ∈ st.quizzes.filter (fun q => !q.isPublic) := by
      rw [List.mem_filter]
      exact ⟨hq, by rw [hpub]; rfl⟩
    have hany : (st.quizzes.filter (fun q => !q.isPublic)).any (fun p => p.id = q.id) = true := by
      rw [List.any_eq_true]
      exact ⟨q, hmem, by simp⟩
    rw [hany]
    rfl
  · have hany : (st.quizzes.filter (fun q => !q.isPublic)).any (fun p => p.id = q.id) = false := by
      rw [Bool.eq_false_iff]
      intro hany
      rw [List.any_eq_true] at hany
      obtain ⟨p, hp, hpid⟩ := hany
      rw [List.mem_filter] at hp
      have hid : p.id = q.id := by simpa using hpid
      have hpq : p = q := id_inj_of_nodup hnd hp.1 hq hid
      subst hpq
      rw [hpub] at hp
      simp at hp
    rw [hany]
    rfl

theorem jsUid_some {o : Option String} {w : String} (h : jsUid o = some w) : o = some w := by
  cases o with
  | none => cases h
  | some s =>
    simp only [jsUid] at h
    by_cases hs : s = ""
    · rw [if_pos hs] at h
      cases h
    · rw [if_neg hs] at h
      exact congrArg some (Option.some.inj h)

theorem mapSet_fresh : ∀ (l : List Quiz) (q : Quiz), (∀ x ∈ l, x.id ≠ q.id) →
    mapSet l q = l ++ [q]
  | [], q, _ => rfl
  | x :: rest, q, h => by
    simp only [mapSet, if_neg (h x (List.mem_cons_self _ _)), List.cons_append,
      List.cons.injEq, true_and]
    exact mapSet_fresh rest q (fun y hy => h y (List.mem_cons_of_mem _ hy))

theorem mapSet_map_id_mem : ∀ (l : List Quiz) (q : Quiz), q.id ∈ l.map (fun x => x.id) →
    (mapSet l q).map (fun x => x.id) = l.map (fun x => x.id)
  | [], q, h => by cases h
  | x :: rest, q, h => by
    by_cases he : x.id = q.id
    · unfold mapSet
      rw [if_pos he]
      simp only [List.map_cons, he]
    · simp only [List.map_cons, List.mem_cons] at h
      rcases h with h | h
      · exact absurd h.symm he
      · simp only [mapSet, if_neg he, List.map_cons, List.cons.injEq, true_and]
        exact mapSet_map_id_mem rest q h

theorem mapSet_mem_decomp : ∀ (l : List Quiz) (q x : Quiz),
    (l.map (fun y => y.id)).Nodup → x ∈ mapSet l q → x = q ∨ (x ∈ l ∧ x.id ≠ q.id)
  | [], q, x, _, hx => by
    simp only [mapSet, List.mem_singleton] at hx
    exact Or.inl hx
  | y :: rest, q, x, hnd, hx => by
    rw [List.map_cons] at hnd
    obtain ⟨hy, hnd'⟩ := List.nodup_cons.mp hnd
    by_cases he : y.id = q.id
    · simp only [mapSet, if_pos he, List.mem_cons] at hx
      rcases hx with hx | hx
      · exact Or.inl hx
      · refine Or.inr ⟨List.mem_cons_of_mem _ hx, ?_⟩
        intro hc
        rw [← he] at hc
        exact hy (hc ▸ List.mem_map_of_mem (fun y => y.id) hx)
    · simp only [mapSet, if_neg he, List.mem_cons] at hx
      rcases hx with hx | hx
      · subst hx
        exact Or.inr ⟨List.mem_cons_self _ _, he⟩
      · rcases mapSet_mem_decomp rest q x hnd' hx with h | h
        · exact Or.inl h
        · exact Or.inr ⟨List.mem_cons_of_mem _ h.1, h.2⟩

theorem mapSet_mem_of_mem_ne : ∀ (l : List Quiz) (q x : Quiz),
    x ∈ l → x.id ≠ q.id → x ∈ mapSet l q
  | [], _, _, hx, _ => by cases hx
  | y :: rest, q, x, hx, hne => by
    by_cases he : y.id = q.id
    · simp only [mapSet, if_pos he, List.mem_cons]
      rcases List.mem_cons.mp hx with h | h
      · subst h
        exact absurd he hne
      · exact Or.inr h
    · simp only [mapSet, if_neg he, List.mem_cons]
      rcases List.mem_cons.mp hx with h | h
      · exact Or.inl h
      · exact Or.inr (mapSet_mem_of_mem_ne rest q x h hne)

theorem createQuiz_char (p : QuizPayload) (now : Nat) (st : MemStorage) (w : String)
    (hju : jsUid p.uniqueId = some w)
    (hb : ∀ q ∈ st.quizzes, q.id < st.quizCurrentId) :
    (createQuiz p now st).1.quizzes = st.quizzes ++ [(createQuiz p now st).2] ∧
    (createQuiz p now st).2.id = st.quizCurrentId ∧
    (createQuiz p now st).2.uniqueId = some w ∧
    (createQuiz p now st).1.quizCurrentId = st.quizCurrentId + 1 := by
  unfold createQuiz
  rw [hju]
  refine ⟨?_, rfl, rfl, rfl⟩
  exact mapSet_fresh st.quizzes _ (fun x hx => Nat.ne_of_lt (hb x hx))

theorem getQuiz_eq_some_of_mem (st : MemStorage) (ex : Quiz)
    (hnd : (st.quizzes.map (fun q => q.id)).Nodup) (hmem : ex ∈ st.quizzes) :
    getQuiz ex.id st = some ex := by
  unfold getQuiz
  cases hfind : st.quizzes.find? (fun q => q.id = ex.id) with
  | none =>
    rw [List.find?_eq_none] at hfind
    exact absurd (by simp) (hfind ex hmem)
  | some q0 =>
    have hq0mem := List.mem_of_find?_eq_some hfind
    have hq0id : q0.id = ex.id := by simpa using List.find?_some hfind
    rw [id_inj_of_nodup hnd hq0mem hmem hq0id]

theorem updateQuiz_char (i : Nat) (p : QuizPayload) (st : MemStorage) (ex : Quiz)
    (hget : getQuiz i st = some ex) :
    (updateQuiz i p st).1.quizzes = mapSet st.quizzes
      { id := ex.id
        uniqueId :=
          match p.uniqueId with
          | some s => some s
          | none => ex.uniqueId
        title := p.title
        description := p.description
        questions := p.questions
        isPublic := p.isPublic
        version := if ex.version = 0 then 1 else ex.version + 1
        createdAt :=
          match p.createdAt with
          | some t => some t
          | none => ex.createdAt } ∧
    (updateQuiz i p st).1.quizCurrentId = st.quizCurrentId := by
  unfold updateQuiz
  rw [hget]
  exact ⟨rfl, rfl⟩

theorem getQuizByUniqueId_none_iff (u : String) (st : MemStorage) :
    getQuizByUniqueId u st = none ↔ ∀ q ∈ st.quizzes, q.uniqueId ≠ some u := by
  unfold getQuizByUniqueId
  rw [List.find?_eq_none]
  constructor
  · intro h q hq hc
    exact h q hq (by simp [hc])
  · intro h q hq
    simp only [decide_eq_true_eq]
    exact h q hq

theorem getQuizByUniqueId_some (u : String) (st : MemStorage) (ex : Quiz)
    (h : getQuizByUniqueId u st = some ex) : ex ∈ st.quizzes ∧ ex.uniqueId = some u := by
  unfold getQuizByUniqueId at h
  exact ⟨List.mem_of_find?_eq_some h, by simpa using List.find?_some h⟩

theorem syncPhase1Step_pres (now : Nat) (st : MemStorage) (p : QuizPayload) (u : String)
    (hnd : (st.quizzes.map (fun q => q.id)).Nodup)
    (hb : ∀ q ∈ st.quizzes, q.id < st.quizCurrentId) :
    ((syncPhase1Step now st p).quizzes.map (fun q => q.id)).Nodup ∧
    (∀ q ∈ (syncPhase1Step now st p).quizzes, q.id < (syncPhase1Step now st p).quizCurrentId) ∧
    ((∀ a ∈ st.quizzes, ∀ b ∈ st.quizzes,
        a.uniqueId = some u → b.uniqueId = some u → a = b) →
      (∀ a ∈ (syncPhase1Step now st p).quizzes, ∀ b ∈ (syncPhase1Step now st p).quizzes,
        a.uniqueId = some u → b.uniqueId = some u → a = b)) := by
  unfold syncPhase1Step
  cases hju : jsUid p.uniqueId with
  | none => exact ⟨hnd, hb, fun hone => hone⟩
  | some w =>
    dsimp only
    cases hget : getQuizByUniqueId w st with
    | some ex =>
      obtain ⟨hexmem, hexuid⟩ := getQuizByUniqueId_some w st ex hget
      have hgq : getQuiz ex.id st = some ex := getQuiz_eq_some_of_mem st ex hnd hexmem
      obtain ⟨hqs, hcnt⟩ := updateQuiz_char ex.id p st ex hgq
      have hpuid : p.uniqueId = some w := jsUid_some hju
      set upd : Quiz :=
        { id := ex.id
          uniqueId :=
            match p.uniqueId with
            | some s => some s
            | none => ex.uniqueId
          title := p.title
          description := p.description
          questions := p.questions
          isPublic := p.isPublic
          version := if ex.version = 0 then 1 else ex.version + 1
          createdAt :=
            match p.createdAt with
            | some t => some t
            | none => ex.createdAt } with hupd
      have hupduid : upd.uniqueId = some w := by
        rw [hupd, hpuid]
      have hupdid : upd.id = ex.id := rfl
      have hidsin : upd.id ∈ st.quizzes.map (fun q => q.id) :=
        hupdid ▸ List.mem_map_of_mem (fun q => q.id) hexmem
      have hids : ((mapSet st.quizzes upd).map (fun q => q.id)) = st.quizzes.map (fun q => q.id) :=
        mapSet_map_id_mem st.quizzes upd hidsin
      refine ⟨?_, ?_, ?_⟩
      · rw [hqs, hids]
        exact hnd
      · intro q hq
        rw [hqs] at hq
        rw [hcnt]
        rcases mapSet_mem_decomp st.quizzes upd q hnd hq with h | h
        · subst h
          exact hupdid ▸ hb ex hexmem
        · exact hb q h.1
      · intro hone a ha b hb2 hau hbu
        rw [hqs] at ha hb2
        rcases mapSet_mem_decomp st.quizzes upd a hnd ha with h1 | h1 <;>
          rcases mapSet_mem_decomp st.quizzes upd b hnd hb2 with h2 | h2
        · rw [h1, h2]
        · subst h1
          exfalso
          have hwu : w = u := by
            rw [hupduid] at hau
            exact Option.some.inj hau
          have : b = ex := hone b h2.1 ex hexmem hbu (by rw [hexuid, hwu])
          exact h2.2 (by rw [this])
        · subst h2
          exfalso
          have hwu : w = u := by
            rw [hupduid] at hbu
            exact Option.some.inj hbu
          have : a = ex := hone a h1.1 ex hexmem hau (by rw [hexuid, hwu])
          exact h1.2 (by rw [this])
        · exact hone a h1.1 b h2.1 hau hbu
    | none =>
      obtain ⟨hqs, hid, huid, hcnt⟩ := createQuiz_char p now st w hju hb
      have hnomem : ∀ q ∈ st.quizzes, q.uniqueId ≠ some w :=
        (getQuizByUniqueId_none_iff w st).mp hget
      refine ⟨?_, ?_, ?_⟩
      · rw [hqs, List.map_append]
        rw [List.nodup_append]
        refine ⟨hnd, by simp, ?_⟩
        intro a ha
        simp only [List.map_cons, List.map_nil, List.mem_singleton, hid]
        rw [List.mem_map] at ha
        obtain ⟨q, hq, rfl⟩ := ha
        exact fun hc => absurd (hc ▸ hb q hq) (lt_irrefl _)
      · intro q hq
        rw [hqs] at hq
        rw [hcnt]
        rcases List.mem_append.mp hq with h | h
        · exact Nat.lt_succ_of_lt (hb q h)
        · rw [List.mem_singleton] at h
          subst h
          rw [hid]
          exact Nat.lt_succ_self _
      · intro hone a ha b hb2 hau hbu
        rw [hqs] at ha hb2
        rcases List.mem_append.mp ha with h1 | h1 <;>
          rcases List.mem_append.mp hb2 with h2 | h2
        · exact hone a h1 b h2 hau hbu
        · rw [List.mem_singleton] at h2
          subst h2
          exfalso
          rw [huid] at hbu
          exact hnomem a h1 (by rw [hau, Option.some.inj hbu])
        · rw [List.mem_singleton] at h1
          subst h1
          exfalso
          rw [huid] at hau
          exact hnomem b h2 (by rw [hbu, Option.some.inj hau])
        · rw [List.mem_singleton] at h1 h2
          rw [h1, h2]

theorem syncPhase2Step_state (st : MemStorage) (p : QuizPayload) :
    (syncPhase2Step st p).quizzes.Sublist st.quizzes ∧
    (syncPhase2Step st p).quizCurrentId = st.quizCurrentId := by
  unfold syncPhase2Step
  cases hp : p.isPublic
  · simp only [Bool.not_false]
    rw [if_pos trivial]
    cases hju : jsUid p.uniqueId with
    | none => exact ⟨List.Sublist.refl _, rfl⟩
    | some u =>
      dsimp only
      cases hget : getQuizByUniqueId u st with
      | none => exact ⟨List.Sublist.refl _, rfl⟩
      | some ex => exact ⟨mapDelete_sublist st.quizzes ex.id, rfl⟩
  · simp only [Bool.not_true]
    rw [if_neg (by simp)]
    exact ⟨List.Sublist.refl _, rfl⟩

theorem noUid_of_sublist {u : String} {st st' : MemStorage}
    (hsub : st'.quizzes.Sublist st.quizzes)
    (h : getQuizByUniqueId u st = none) : getQuizByUniqueId u st' = none := by
  rw [getQuizByUniqueId_none_iff] at h ⊢
  exact fun q hq => h q (hsub.subset hq)

theorem syncPhase2Step_establish (st : MemStorage) (p : QuizPayload) (u : String)
    (hnd : (st.quizzes.map (fun q => q.id)).Nodup)
    (hone : ∀ a ∈ st.quizzes, ∀ b ∈ st.quizzes,
      a.uniqueId = some u → b.uniqueId = some u → a = b)
    (hpriv : p.isPublic = false) (hpu : jsUid p.uniqueId = some u) :
    getQuizByUniqueId u (syncPhase2Step st p) = none := by
  unfold syncPhase2Step
  rw [hpriv, hpu]
  simp only [Bool.not_false]
  rw [if_pos trivial]
  cases hget : getQuizByUniqueId u st with
  | none => exact hget
  | some ex =>
    obtain ⟨hexmem, hexuid⟩ := getQuizByUniqueId_some u st ex hget
    rw [getQuizByUniqueId_none_iff]
    intro q hq
    dsimp only at hq
    rw [mapDelete_eq_filter st.quizzes ex.id hnd, List.mem_filter] at hq
    intro hqu
    have hqe : q = ex := hone q hq.1 ex hexmem hqu hexuid
    have hqid : q.id ≠ ex.id := by simpa using hq.2
    exact hqid (by rw [hqe])

theorem syncPhase1_fold_pres (now : Nat) (u : String) :
    ∀ (l : List QuizPayload) (st : MemStorage),
    (st.quizzes.map (fun q => q.id)).Nodup →
    (∀ q ∈ st.quizzes, q.id < st.quizCurrentId) →
    (((List.foldl (syncPhase1Step now) st l).quizzes.map (fun q => q.id)).Nodup ∧
     (∀ q ∈ (List.foldl (syncPhase1Step now) st l).quizzes,
        q.id < (List.foldl (syncPhase1Step now) st l).quizCurrentId) ∧
     ((∀ a ∈ st.quizzes, ∀ b ∈ st.quizzes,
         a.uniqueId = some u → b.uniqueId = some u → a = b) →
       (∀ a ∈ (List.foldl (syncPhase1Step now) st l).quizzes,
          ∀ b ∈ (List.foldl (syncPhase1Step now) st l).quizzes,
          a.uniqueId = some u → b.uniqueId = some u → a = b)))
  | [], st, h1, h2 => ⟨h1, h2, fun hone => hone⟩
  | p :: t, st, h1, h2 => by
    rw [List.foldl_cons]
    obtain ⟨g1, g2, g3⟩ := syncPhase1Step_pres now st p u h1 h2
    obtain ⟨r1, r2, r3⟩ := syncPhase1_fold_pres now u t (syncPhase1Step now st p) g1 g2
    exact ⟨r1, r2, fun hone => r3 (g3 hone)⟩

theorem syncPhase2_fold_state : ∀ (l : List QuizPayload) (st : MemStorage),
    (List.foldl syncPhase2Step st l).quizzes.Sublist st.quizzes ∧
    (List.foldl syncPhase2Step st l).quizCurrentId = st.quizCurrentId
  | [], st => ⟨List.Sublist.refl _, rfl⟩
  | p :: t, st => by
    rw [List.foldl_cons]
    obtain ⟨g1, g2⟩ := syncPhase2Step_state st p
    obtain ⟨r1, r2⟩ := syncPhase2_fold_state t (syncPhase2Step st p)
    exact ⟨r1.trans g1, r2.trans g2⟩

theorem syncPhase2_fold_noUid (u : String) : ∀ (l : List QuizPayload) (st : MemStorage),
    getQuizByUniqueId u st = none →
    getQuizByUniqueId u (List.foldl syncPhase2Step st l) = none
  | [], _, h => h
  | p :: t, st, h => by
    rw [List.foldl_cons]
    exact syncPhase2_fold_noUid u t (syncPhase2Step st p)
      (noUid_of_sublist (syncPhase2Step_state st p).1 h)

theorem delFold_sublist : ∀ (ps l : List Quiz) (n : Nat),
    ((ps.foldl (fun (acc : List Quiz × Nat) q =>
        let d := mapDelete acc.1 q.id
        (d.1, if d.2 then acc.2 + 1 else acc.2)) (l, n)).1).Sublist l
  | [], _, _ => List.Sublist.refl _
  | p :: ps, l, n => by
    rw [List.foldl_cons]
    exact (delFold_sublist ps (mapDelete l p.id).1 _).trans (mapDelete_sublist l p.id)

theorem deletePrivate_sublist (st : MemStorage) :
    (deletePrivateQuizzes st).1.quizzes.Sublist st.quizzes := by
  unfold deletePrivateQuizzes
  exact delFold_sublist _ st.quizzes 0

theorem syncQuizzes_fst (batch : List QuizPayload) (now : Nat) (st : MemStorage) :
    (syncQuizzes batch now st).1 =
      (deletePrivateQuizzes (List.foldl syncPhase2Step
        (List.foldl (syncPhase1Step now) st (batch.filter (fun p => p.isPublic)))
        batch)).1 := rfl

/-- C3: after `syncQuizzes` no stored record is private (the final
`deletePrivateQuizzes` sweep leaves exactly the public records), and — amended
with the `Map`'s uniqueness invariants — if the batch contains a record
marked private whose truthy `uniqueId` is `u` and at most one stored record
carries `u`, then no record with `uniqueId = u` is stored after the sync.
The hypotheses on `st` are the storage-representation invariants: pairwise
distinct ids, ids below the id counter, and (for the second part) at most one
holder of `u`. -/
theorem c3_privacy_sweep (st : MemStorage) (batch : List QuizPayload) (now : Nat)
    (hnd : (st.quizzes.map (fun q => q.id)).Nodup)
    (hb : ∀ q ∈ st.quizzes, q.id < st.quizCurrentId) :
    (∀ q ∈ (syncQuizzes batch now st).1.quizzes, q.isPublic = true) ∧
    (∀ u, (∀ a ∈ st.quizzes, ∀ b ∈ st.quizzes,
        a.uniqueId = some u → b.uniqueId = some u → a = b) →
      (∃ p ∈ batch, p.isPublic = false ∧ jsUid p.uniqueId = some u) →
      getQuizByUniqueId u (syncQuizzes batch now st).1 = none) := by
  constructor
  · intro q hq
    rw [syncQuizzes_fst] at hq
    obtain ⟨h1nd, h1b, _⟩ := syncPhase1_fold_pres now "" (batch.filter (fun p => p.isPublic))
      st hnd hb
    have h2nd : ((List.foldl syncPhase2Step
        (List.foldl (syncPhase1Step now) st (batch.filter (fun p => p.isPublic)))
        batch).quizzes.map (fun q => q.id)).Nodup :=
      List.Nodup.sublist
        (List.Sublist.map _ (syncPhase2_fold_state batch _).1) h1nd
    rw [deletePrivate_eq_filter _ h2nd, List.mem_filter] at hq
    exact hq.2
  · intro u hone hex
    obtain ⟨pv, hpvmem, hpriv, hpu⟩ := hex
    obtain ⟨l1, l2, hsplit⟩ := List.append_of_mem hpvmem
    subst hsplit
    obtain ⟨h1nd, h1b, h1one⟩ := syncPhase1_fold_pres now u
      ((l1 ++ pv :: l2).filter (fun p => p.isPublic)) st hnd hb
    have hone1 := h1one hone
    rw [syncQuizzes_fst]
    rw [List.foldl_append, List.foldl_cons]
    set st1 := List.foldl (syncPhase1Step now) st
      ((l1 ++ pv :: l2).filter (fun p => p.isPublic)) with hst1
    set stMid := List.foldl syncPhase2Step st1 l1 with hstMid
    have hmidsub := (syncPhase2_fold_state l1 st1).1
    have hmidnd : (stMid.quizzes.map (fun q => q.id)).Nodup :=
      List.Nodup.sublist (List.Sublist.map _ hmidsub) h1nd
    have hmidone : ∀ a ∈ stMid.quizzes, ∀ b ∈ stMid.quizzes,
        a.uniqueId = some u → b.uniqueId = some u → a = b :=
      fun a ha b hb2 hau hbu => hone1 a (hmidsub.subset ha) b (hmidsub.subset hb2) hau hbu
    have hestab : getQuizByUniqueId u (syncPhase2Step stMid pv) = none :=
      syncPhase2Step_establish stMid pv u hmidnd hmidone hpriv hpu
    have hkeep : getQuizByUniqueId u (List.foldl syncPhase2Step (syncPhase2Step stMid pv) l2)
        = none :=
      syncPhase2_fold_noUid u l2 _ hestab
    exact noUid_of_sublist (deletePrivate_sublist _) hkeep

/-- C3 counterexample: with two stored public records both carrying
`uniqueId = "u1"` (reachable by creating the same quiz twice through the
create endpoint), syncing a batch that marks `"u1"` private deletes only the
first stored record: a record with `uniqueId = "u1"` is still stored after
the sync, refuting the claim's second part as stated. -/
theorem c3_counterexample :
    c3Priv.isPublic = false ∧ c3Priv.uniqueId = some "u1" ∧
    getQuizByUniqueId "u1" c3St = some c3A ∧
    (syncQuizzes [c3Priv] 0 c3St).1
      = { quizzes := [c3B], quizCurrentId := 3, uuidCounter := 0 } ∧
    c3B.uniqueId = some "u1" := by
  decide

/-- C3 amended, witnessed at a concrete input: syncing the private `"u1"`
batch against a store holding a single public `"u1"` record leaves no private
record and no `"u1"` record. -/
theorem c3_privacy_sweep_witness :
    (∀ q ∈ (syncQuizzes [c3Priv] 0 c3StW).1.quizzes, q.isPublic = true) ∧
    getQuizByUniqueId "u1" (syncQuizzes [c3Priv] 0 c3StW).1 = none :=
  ⟨(c3_privacy_sweep c3StW [c3Priv] 0 (by decide) (by decide)).1,
   (c3_privacy_sweep c3StW [c3Priv] 0 (by decide) (by decide)).2 "u1" (by decide)
     ⟨c3Priv, by decide, by decide, by decide⟩⟩

theorem mem_delId {s : List Nat} {i j : Nat} : j ∈ delId s i ↔ j ∈ s ∧ j ≠ i := by
  unfold delId
  rw [List.mem_filter]
  simp

theorem pass1_main : ∀ (l pre : List Quiz) (s : P1State),
    ((pre ++ l).map (fun q => q.id)).Nodup →
    (∀ u w, assocFind s.map u = some w →
      w ∈ pre ∧ jsUid w.uniqueId = some u ∧ w.id ∈ s.kept) →
    (∀ x ∈ pre, ∀ u, jsUid x.uniqueId = some u → x.id ∈ s.kept →
      assocFind s.map u = some x) →
    (∀ j ∈ s.kept, j ∈ pre.map (fun q => q.id)) →
    (∀ x ∈ pre, (x.id ∈ s.kept ↔ x ∉ s.removed)) →
    (∀ x ∈ s.removed, x ∈ pre) →
    (∀ u w, assocFind (List.foldl p1Step s l).map u = some w →
      w ∈ pre ++ l ∧ jsUid w.uniqueId = some u ∧ w.id ∈ (List.foldl p1Step s l).kept) ∧
    (∀ x ∈ pre ++ l, ∀ u, jsUid x.uniqueId = some u → x.id ∈ (List.foldl p1Step s l).kept →
      assocFind (List.foldl p1Step s l).map u = some x) ∧
    (∀ j ∈ (List.foldl p1Step s l).kept, j ∈ (pre ++ l).map (fun q => q.id)) ∧
    (∀ x ∈ pre ++ l, (x.id ∈ (List.foldl p1Step s l).kept ↔ x ∉ (List.foldl p1Step s l).removed)) ∧
    (∀ x ∈ (List.foldl p1Step s l).removed, x ∈ pre ++ l)
  | [], pre, s, hnd, hmap, hwin, hksub, hpart, hrsub => by
    rw [List.append_nil] at hnd ⊢
    exact ⟨hmap, hwin, hksub, hpart, hrsub⟩
  | q :: t, pre, s, hnd, hmap, hwin, hksub, hpart, hrsub => by
    rw [List.foldl_cons]
    have hnd' : ((pre ++ q :: t).map (fun x => x.id)).Nodup := hnd
    have hperm : ((pre ++ q :: t).map (fun x => x.id)).Perm
        (((pre ++ [q]) ++ t).map (fun x => x.id)) := by
      refine List.Perm.map _ ?_
      rw [List.append_assoc, List.singleton_append]
    have hnd2 : (((pre ++ [q]) ++ t).map (fun x => x.id)).Nodup := hperm.nodup_iff.mp hnd
    -- id freshness facts
    have hq_not_pre : ∀ x ∈ pre, x.id ≠ q.id := by
      intro x hx hc
      rw [List.map_append] at hnd
      obtain ⟨_, _, hdisj⟩ := List.nodup_append.mp hnd
      exact hdisj (List.mem_map_of_mem _ hx)
        (by rw [List.map_cons, hc]; exact List.mem_cons_self _ _)
    have hq_not_kept : q.id ∉ s.kept := by
      intro hc
      have := hksub q.id hc
      rw [List.mem_map] at this
      obtain ⟨x, hx, hxid⟩ := this
      exact hq_not_pre x hx hxid
    have hq_not_removed : q ∉ s.removed := by
      intro hc
      exact hq_not_pre q (hrsub q hc) rfl
    have happ : pre ++ q :: t = (pre ++ [q]) ++ t := by
      rw [List.append_assoc, List.singleton_append]
    rw [happ]
    cases hu : jsUid q.uniqueId with
    | none =>
      have hstep : p1Step s q = { s with kept := addId s.kept q.id } := by
        unfold p1Step
        rw [hu]
      rw [hstep]
      refine pass1_main t (pre ++ [q]) _ hnd2 ?_ ?_ ?_ ?_ ?_
      · intro u w hw
        obtain ⟨h1, h2, h3⟩ := hmap u w hw
        exact ⟨List.mem_append_left _ h1, h2, mem_addId.mpr (Or.inl h3)⟩
      · intro x hx u hxu hxk
        rcases List.mem_append.mp hx with hx | hx
        · rcases mem_addId.mp hxk with hk | hk
          · exact hwin x hx u hxu hk
          · exact absurd (hk ▸ rfl) (hq_not_pre x hx)
        · rw [List.mem_singleton] at hx
          subst hx
          rw [hu] at hxu
          cases hxu
      · intro j hj
        rcases mem_addId.mp hj with hj | hj
        · obtain ⟨x, hx, hxid⟩ := List.mem_map.mp (hksub j hj)
          exact hxid ▸ List.mem_map_of_mem _ (List.mem_append_left _ hx)
        · subst hj
          exact List.mem_map_of_mem _ (List.mem_append_right _ (List.mem_singleton_self _))
      · intro x hx
        rcases List.mem_append.mp hx with hx | hx
        · rw [mem_addId]
          constructor
          · rintro (hk | hk)
            · exact (hpart x hx).mp hk
            · exact absurd (hk ▸ rfl) (hq_not_pre x hx)
          · intro hr
            exact Or.inl ((hpart x hx).mpr hr)
        · rw [List.mem_singleton] at hx
          subst hx
          rw [mem_addId]
          constructor
          · intro _
            exact hq_not_removed
          · intro _
            exact Or.inr rfl
      · intro x hx
        exact List.mem_append_left _ (hrsub x hx)
    | some u =>
      have hpre_nd : (pre.map (fun x => x.id)).Nodup := by
        rw [List.map_append] at hnd
        exact (List.nodup_append.mp hnd).1
      cases hnone : assocFind s.map u with
      | none =>
        have hstep : p1Step s q =
            { map := assocSet s.map u q
              kept := addId s.kept q.id
              removed := s.removed } := by
          unfold p1Step
          rw [hu]
          dsimp only
          rw [hnone]
        rw [hstep]
        refine pass1_main t (pre ++ [q]) _ hnd2 ?_ ?_ ?_ ?_ ?_
        · intro u' w hw
          dsimp only at hw
          rw [assocFind_assocSet] at hw
          by_cases he : u' = u
          · rw [if_pos he] at hw
            have hwq : w = q := (Option.some.inj hw).symm
            subst hwq
            exact ⟨List.mem_append_right _ (List.mem_singleton_self _), he ▸ hu,
              mem_addId.mpr (Or.inr rfl)⟩
          · rw [if_neg he] at hw
            obtain ⟨h1, h2, h3⟩ := hmap u' w hw
            exact ⟨List.mem_append_left _ h1, h2, mem_addId.mpr (Or.inl h3)⟩
        · intro x hx u' hxu hxk
          dsimp only at hxk ⊢
          rcases List.mem_append.mp hx with hx | hx
          · rcases mem_addId.mp hxk with hk | hk
            · have hx' := hwin x hx u' hxu hk
              by_cases he : u' = u
              · rw [he, hnone] at hx'
                cases hx'
              · rw [assocFind_assocSet, if_neg he]
                exact hx'
            · exact absurd (hk ▸ rfl) (hq_not_pre x hx)
          · rw [List.mem_singleton] at hx
            subst hx
            rw [hu] at hxu
            have : u' = u := (Option.some.inj hxu).symm
            subst this
            rw [assocFind_assocSet, if_pos rfl]
        · intro j hj
          rcases mem_addId.mp hj with hj | hj
          · obtain ⟨x, hx, hxid⟩ := List.mem_map.mp (hksub j hj)
            exact hxid ▸ List.mem_map_of_mem _ (List.mem_append_left _ hx)
          · subst hj
            exact List.mem_map_of_mem _ (List.mem_append_right _ (List.mem_singleton_self _))
        · intro x hx
          dsimp only
          rcases List.mem_append.mp hx with hx | hx
          · rw [mem_addId]
            constructor
            · rintro (hk | hk)
              · exact (hpart x hx).mp hk
              · exact absurd (hk ▸ rfl) (hq_not_pre x hx)
            · intro hr
              exact Or.inl ((hpart x hx).mpr hr)
          · rw [List.mem_singleton] at hx
            subst hx
            rw [mem_addId]
            exact ⟨fun _ => hq_not_removed, fun _ => Or.inr rfl⟩
        · intro x hx
          exact List.mem_append_left _ (hrsub x hx)
      | some w0 =>
        obtain ⟨hw0pre, hw0uid, hw0kept⟩ := hmap u w0 hnone
        have hqw0 : q ≠ w0 := fun hc => hq_not_pre w0 hw0pre (by rw [hc])
        by_cases hkn : keepNewQuiz q w0 = true
        · have hstep : p1Step s q =
              { map := assocSet s.map u q
                kept := addId (delId s.kept w0.id) q.id
                removed := s.removed ++ [w0] } := by
            unfold p1Step
            rw [hu]
            dsimp only
            rw [hnone]
            dsimp only
            rw [if_pos hkn]
          rw [hstep]
          refine pass1_main t (pre ++ [q]) _ hnd2 ?_ ?_ ?_ ?_ ?_
          · intro u' w hw
            dsimp only at hw ⊢
            rw [assocFind_assocSet] at hw
            by_cases he : u' = u
            · rw [if_pos he] at hw
              have hwq : w = q := (Option.some.inj hw).symm
              subst hwq
              exact ⟨List.mem_append_right _ (List.mem_singleton_self _), he ▸ hu,
                mem_addId.mpr (Or.inr rfl)⟩
            · rw [if_neg he] at hw
              obtain ⟨h1, h2, h3⟩ := hmap u' w hw
              refine ⟨List.mem_append_left _ h1, h2, mem_addId.mpr (Or.inl ?_)⟩
              rw [mem_delId]
              refine ⟨h3, ?_⟩
              intro hc
              have : w = w0 := id_inj_of_nodup hpre_nd h1 hw0pre hc
              subst this
              rw [hw0uid] at h2
              exact he (Option.some.inj h2).symm
          · intro x hx u' hxu hxk
            dsimp only at hxk ⊢
            rcases List.mem_append.mp hx with hx | hx
            · rcases mem_addId.mp hxk with hk | hk
              · rw [mem_delId] at hk
                have hx' := hwin x hx u' hxu hk.1
                by_cases he : u' = u
                · rw [he, hnone] at hx'
                  have : x = w0 := Option.some.inj hx'.symm
                  exact absurd (this ▸ rfl) hk.2
                · rw [assocFind_assocSet, if_neg he]
                  exact hx'
              · exact absurd (hk ▸ rfl) (hq_not_pre x hx)
            · rw [List.mem_singleton] at hx
              subst hx
              rw [hu] at hxu
              have : u' = u := (Option.some.inj hxu).symm
              subst this
              rw [assocFind_assocSet, if_pos rfl]
          · intro j hj
            rcases mem_addId.mp hj with hj | hj
            · rw [mem_delId] at hj
              obtain ⟨x, hx, hxid⟩ := List.mem_map.mp (hksub j hj.1)
              exact hxid ▸ List.mem_map_of_mem _ (List.mem_append_left _ hx)
            · subst hj
              exact List.mem_map_of_mem _ (List.mem_append_right _ (List.mem_singleton_self _))
          · intro x hx
            dsimp only
            rcases List.mem_append.mp hx with hx | hx
            · by_cases hxw : x.id = w0.id
              · have hxeq : x = w0 := id_inj_of_nodup hpre_nd hx hw0pre hxw
                subst hxeq
                rw [mem_addId, mem_delId]
                constructor
                · rintro (⟨_, hk⟩ | hk)
                  · exact absurd rfl hk
                  · exact absurd (hk ▸ rfl) (hq_not_pre x hx)
                · intro hr
                  exact absurd (List.mem_append_right _ (List.mem_singleton_self _)) hr
              · rw [mem_addId, mem_delId]
                constructor
                · rintro (⟨hk, _⟩ | hk)
                  · intro hr
                    rcases List.mem_append.mp hr with hr | hr
                    · exact ((hpart x hx).mp hk) hr
                    · rw [List.mem_singleton] at hr
                      exact hxw (hr ▸ rfl)
                  · exact absurd (hk ▸ rfl) (hq_not_pre x hx)
                · intro hr
                  refine Or.inl ⟨(hpart x hx).mpr ?_, hxw⟩
                  intro hc
                  exact hr (List.mem_append_left _ hc)
            · rw [List.mem_singleton] at hx
              subst hx
              rw [mem_addId]
              constructor
              · intro _ hr
                rcases List.mem_append.mp hr with hr | hr
                · exact hq_not_removed hr
                · rw [List.mem_singleton] at hr
                  exact hqw0 hr
              · intro _
                exact Or.inr rfl
          · intro x hx
            rcases List.mem_append.mp hx with hx | hx
            · exact List.mem_append_left _ (hrsub x hx)
            · rw [List.mem_singleton] at hx
              subst hx
              exact List.mem_append_left _ hw0pre
        · have hstep : p1Step s q = { s with removed := s.removed ++ [q] } := by
            unfold p1Step
            rw [hu]
            dsimp only
            rw [hnone]
            dsimp only
            rw [if_neg hkn]
          rw [hstep]
          refine pass1_main t (pre ++ [q]) _ hnd2 ?_ ?_ ?_ ?_ ?_
          · intro u' w hw
            obtain ⟨h1, h2, h3⟩ := hmap u' w hw
            exact ⟨List.mem_append_left _ h1, h2, h3⟩
          · intro x hx u' hxu hxk
            rcases List.mem_append.mp hx with hx | hx
            · exact hwin x hx u' hxu hxk
            · rw [List.mem_singleton] at hx
              subst hx
              exact absurd hxk hq_not_kept
          · intro j hj
            obtain ⟨x, hx, hxid⟩ := List.mem_map.mp (hksub j hj)
            exact hxid ▸ List.mem_map_of_mem _ (List.mem_append_left _ hx)
          · intro x hx
            dsimp only
            rcases List.mem_append.mp hx with hx | hx
            · constructor
              · intro hk hr
                rcases List.mem_append.mp hr with hr | hr
                · exact ((hpart x hx).mp hk) hr
                · rw [List.mem_singleton] at hr
                  exact hq_not_pre x hx (hr ▸ rfl)
              · intro hr
                refine (hpart x hx).mpr ?_
                intro hc
                exact hr (List.mem_append_left _ hc)
            · rw [List.mem_singleton] at hx
              subst hx
              constructor
              · intro hk
                exact absurd hk hq_not_kept
              · intro hr
                exact absurd (List.mem_append_right _ (List.mem_singleton_self _)) hr
          · intro x hx
            rcases List.mem_append.mp hx with hx | hx
            · exact List.mem_append_left _ (hrsub x hx)
            · rw [List.mem_singleton] at hx
              subst hx
              exact List.mem_append_right _ (List.mem_singleton_self _)

theorem pass2_main : ∀ (l pre : List Quiz) (s : P2State),
    ((pre ++ l).map (fun q => q.id)).Nodup →
    (∀ h w, assocFind s.map h = some w →
      w ∈ pre ∧ jsUid w.uniqueId = none ∧ w.id ∈ s.kept ∧ createContentHash w = h) →
    (∀ x ∈ pre, jsUid x.uniqueId = none → x.id ∈ s.kept →
      assocFind s.map (createContentHash x) = some x) →
    (∀ x ∈ pre ++ l, (x.id ∈ s.kept ↔ x ∉ s.removed)) →
    (∀ x ∈ s.removed, x ∈ pre ++ l) →
    (∀ h w, assocFind (List.foldl p2Step s l).map h = some w →
      w ∈ pre ++ l ∧ jsUid w.uniqueId = none ∧ w.id ∈ (List.foldl p2Step s l).kept ∧
        createContentHash w = h) ∧
    (∀ x ∈ pre ++ l, jsUid x.uniqueId = none → x.id ∈ (List.foldl p2Step s l).kept →
      assocFind (List.foldl p2Step s l).map (createContentHash x) = some x) ∧
    (∀ x ∈ pre ++ l, (x.id ∈ (List.foldl p2Step s l).kept ↔ x ∉ (List.foldl p2Step s l).removed)) ∧
    (∀ x ∈ (List.foldl p2Step s l).removed, x ∈ pre ++ l)
  | [], pre, s, hnd, hmap, hwin, hpart, hrsub => by
    rw [List.append_nil] at hnd hpart hrsub ⊢
    exact ⟨hmap, hwin, hpart, hrsub⟩
  | q :: t, pre, s, hnd, hmap, hwin, hpart, hrsub => by
    rw [List.foldl_cons]
    have hperm : ((pre ++ q :: t).map (fun x => x.id)).Perm
        (((pre ++ [q]) ++ t).map (fun x => x.id)) := by
      refine List.Perm.map _ ?_
      rw [List.append_assoc, List.singleton_append]
    have hnd2 : (((pre ++ [q]) ++ t).map (fun x => x.id)).Nodup := hperm.nodup_iff.mp hnd
    have hq_not_pre : ∀ x ∈ pre, x.id ≠ q.id := by
      intro x hx hc
      rw [List.map_append] at hnd
      obtain ⟨_, _, hdisj⟩ := List.nodup_append.mp hnd
      exact hdisj (List.mem_map_of_mem _ hx)
        (by rw [List.map_cons, hc]; exact List.mem_cons_self _ _)
    have happ : pre ++ q :: t = (pre ++ [q]) ++ t := by
      rw [List.append_assoc, List.singleton_append]
    have hqmem : q ∈ pre ++ q :: t := List.mem_append_right _ (List.mem_cons_self _ _)
    rw [happ] at hpart hrsub ⊢
    have hqmem2 : q ∈ (pre ++ [q]) ++ t := happ ▸ hqmem
    by_cases hqk : q.id ∈ s.kept
    · cases hu : jsUid q.uniqueId with
      | some u =>
        have hstep : p2Step s q = s := by
          unfold p2Step
          rw [if_pos hqk, hu]
        rw [hstep]
        refine pass2_main t (pre ++ [q]) s hnd2 ?_ ?_ hpart hrsub
        · intro h w hw
          obtain ⟨h1, h2, h3, h4⟩ := hmap h w hw
          exact ⟨List.mem_append_left _ h1, h2, h3, h4⟩
        · intro x hx hxu hxk
          rcases List.mem_append.mp hx with hx | hx
          · exact hwin x hx hxu hxk
          · rw [List.mem_singleton] at hx
            subst hx
            rw [hu] at hxu
            cases hxu
      | none =>
        cases hnone : assocFind s.map (createContentHash q) with
        | none =>
          have hstep : p2Step s q = { s with map := assocSet s.map (createContentHash q) q } := by
            unfold p2Step
            rw [if_pos hqk, hu]
            dsimp only
            rw [hnone]
          rw [hstep]
          refine pass2_main t (pre ++ [q]) _ hnd2 ?_ ?_ hpart hrsub
          · intro h w hw
            dsimp only at hw
            rw [assocFind_assocSet] at hw
            by_cases he : h = createContentHash q
            · rw [if_pos he] at hw
              have hwq : w = q := (Option.some.inj hw).symm
              subst hwq
              exact ⟨List.mem_append_right _ (List.mem_singleton_self _), hu, hqk, he.symm⟩
            · rw [if_neg he] at hw
              obtain ⟨h1, h2, h3, h4⟩ := hmap h w hw
              exact ⟨List.mem_append_left _ h1, h2, h3, h4⟩
          · intro x hx hxu hxk
            dsimp only at hxk ⊢
            rw [assocFind_assocSet]
            rcases List.mem_append.mp hx with hx | hx
            · by_cases he : createContentHash x = createContentHash q
              · have hx' := hwin x hx hxu hxk
                rw [he, hnone] at hx'
                cases hx'
              · rw [if_neg he]
                exact hwin x hx hxu hxk
            · rw [List.mem_singleton] at hx
              subst hx
              rw [if_pos rfl]
        | some w0 =>
          obtain ⟨hw0pre, hw0uid, hw0kept, hw0hash⟩ := hmap (createContentHash q) w0 hnone
          have hqw0id : w0.id ≠ q.id := hq_not_pre w0 hw0pre
          have hqw0 : q ≠ w0 := fun hc => hqw0id (by rw [hc])
          by_cases hkn : keepNewQuiz q w0 = true
          · have hstep : p2Step s q =
                { map := assocSet s.map (createContentHash q) q
                  kept := addId (delId s.kept w0.id) q.id
                  removed := s.removed ++ [w0] } := by
              unfold p2Step
              rw [if_pos hqk, hu]
              dsimp only
              rw [hnone]
              dsimp only
              rw [if_pos hkn]
            rw [hstep]
            refine pass2_main t (pre ++ [q])
              { map := assocSet s.map (createContentHash q) q
                kept := addId (delId s.kept w0.id) q.id
                removed := s.removed ++ [w0] } hnd2 ?_ ?_ ?_ ?_
            · intro h w hw
              dsimp only at hw ⊢
              rw [assocFind_assocSet] at hw
              by_cases he : h = createContentHash q
              · rw [if_pos he] at hw
                have hwq : w = q := (Option.some.inj hw).symm
                subst hwq
                exact ⟨List.mem_append_right _ (List.mem_singleton_self _), hu,
                  mem_addId.mpr (Or.inr rfl), he.symm⟩
              · rw [if_neg he] at hw
                obtain ⟨h1, h2, h3, h4⟩ := hmap h w hw
                refine ⟨List.mem_append_left _ h1, h2, mem_addId.mpr (Or.inl ?_), h4⟩
                rw [mem_delId]
                refine ⟨h3, ?_⟩
                intro hc
                have hpre_nd : (pre.map (fun x => x.id)).Nodup := by
                  rw [List.map_append] at hnd
                  exact (List.nodup_append.mp hnd).1
                have : w = w0 := id_inj_of_nodup hpre_nd h1 hw0pre hc
                subst this
                rw [← h4] at he
                exact he (hw0hash ▸ rfl)
            · intro x hx hxu hxk
              dsimp only at hxk ⊢
              rw [assocFind_assocSet]
              rcases List.mem_append.mp hx with hx | hx
              · rcases mem_addId.mp hxk with hk | hk
                · rw [mem_delId] at hk
                  by_cases he : createContentHash x = createContentHash q
                  · have hx' := hwin x hx hxu hk.1
                    rw [he, hnone] at hx'
                    have : x = w0 := (Option.some.inj hx').symm
                    exact absurd (this ▸ rfl) hk.2
                  · rw [if_neg he]
                    exact hwin x hx hxu hk.1
                · exact absurd (hk ▸ rfl) (hq_not_pre x hx)
              · rw [List.mem_singleton] at hx
                subst hx
                rw [if_pos rfl]
            · intro x hx
              dsimp only
              by_cases hxw : x = w0
              · subst hxw
                rw [mem_addId, mem_delId]
                constructor
                · rintro (⟨_, hk⟩ | hk)
                  · exact absurd rfl hk
                  · exact absurd hk hqw0id
                · intro hr
                  exact absurd (List.mem_append_right _ (List.mem_singleton_self _)) hr
              · have hxw0id : x.id ≠ w0.id := by
                  intro hc
                  exact hxw (id_inj_of_nodup (happ ▸ hnd) hx
                    (List.mem_append_left _ (List.mem_append_left _ hw0pre)) hc)
                rw [mem_addId, mem_delId]
                constructor
                · rintro (⟨hk, _⟩ | hk)
                  · intro hr
                    rcases List.mem_append.mp hr with hr | hr
                    · exact ((hpart x hx).mp hk) hr
                    · rw [List.mem_singleton] at hr
                      exact hxw hr
                  · intro hr
                    rcases List.mem_append.mp hr with hr | hr
                    · exact ((hpart x hx).mp (hk ▸ hqk)) hr
                    · rw [List.mem_singleton] at hr
                      exact hxw hr
                · intro hr
                  by_cases hxq : x.id = q.id
                  · exact Or.inr hxq
                  · refine Or.inl ⟨(hpart x hx).mpr ?_, hxw0id⟩
                    intro hc
                    exact hr (List.mem_append_left _ hc)
            · intro x hx
              rcases List.mem_append.mp hx with hx | hx
              · exact hrsub x hx
              · rw [List.mem_singleton] at hx
                subst hx
                exact List.mem_append_left _ (List.mem_append_left _ hw0pre)
          · have hstep : p2Step s q =
                { s with kept := delId s.kept q.id, removed := s.removed ++ [q] } := by
              unfold p2Step
              rw [if_pos hqk, hu]
              dsimp only
              rw [hnone]
              dsimp only
              rw [if_neg hkn]
            rw [hstep]
            refine pass2_main t (pre ++ [q])
              { s with kept := delId s.kept q.id, removed := s.removed ++ [q] } hnd2 ?_ ?_ ?_ ?_
            · intro h w hw
              obtain ⟨h1, h2, h3, h4⟩ := hmap h w hw
              refine ⟨List.mem_append_left _ h1, h2, ?_, h4⟩
              rw [mem_delId]
              exact ⟨h3, hq_not_pre w h1⟩
            · intro x hx hxu hxk
              dsimp only at hxk
              rw [mem_delId] at hxk
              rcases List.mem_append.mp hx with hx | hx
              · exact hwin x hx hxu hxk.1
              · rw [List.mem_singleton] at hx
                subst hx
                exact absurd rfl hxk.2
            · intro x hx
              dsimp only
              by_cases hxq : x = q
              · subst hxq
                rw [mem_delId]
                constructor
                · rintro ⟨_, hk⟩
                  exact absurd rfl hk
                · intro hr
                  exact absurd (List.mem_append_right _ (List.mem_singleton_self _)) hr
              · have hxqid : x.id ≠ q.id := by
                  intro hc
                  exact hxq (id_inj_of_nodup (happ ▸ hnd) hx hqmem2 hc)
                rw [mem_delId]
                constructor
                · rintro ⟨hk, _⟩
                  intro hr
                  rcases List.mem_append.mp hr with hr | hr
                  · exact ((hpart x hx).mp hk) hr
                  · rw [List.mem_singleton] at hr
                    exact hxq hr
                · intro hr
                  refine ⟨(hpart x hx).mpr ?_, hxqid⟩
                  intro hc
                  exact hr (List.mem_append_left _ hc)
            · intro x hx
              rcases List.mem_append.mp hx with hx | hx
              · exact hrsub x hx
              · rw [List.mem_singleton] at hx
                subst hx
                exact hqmem2
    · have hstep : p2Step s q = s := by
        unfold p2Step
        rw [if_neg hqk]
      rw [hstep]
      refine pass2_main t (pre ++ [q]) s hnd2 ?_ ?_ hpart hrsub
      · intro h w hw
        obtain ⟨h1, h2, h3, h4⟩ := hmap h w hw
        exact ⟨List.mem_append_left _ h1, h2, h3, h4⟩
      · intro x hx hxu hxk
        rcases List.mem_append.mp hx with hx | hx
        · exact hwin x hx hxu hxk
        · rw [List.mem_singleton] at hx
          subst hx
          exact absurd hxk hqk

theorem p2Step_kept_sub (s : P2State) (q : Quiz) : ∀ j ∈ (p2Step s q).kept, j ∈ s.kept := by
  intro j hj
  unfold p2Step at hj
  by_cases hq : q.id ∈ s.kept
  · rw [if_pos hq] at hj
    cases hu : jsUid q.uniqueId with
    | some u =>
      rw [hu] at hj
      exact hj
    | none =>
      rw [hu] at hj
      dsimp only at hj
      cases hnone : assocFind s.map (createContentHash q) with
      | none =>
        rw [hnone] at hj
        exact hj
      | some w0 =>
        rw [hnone] at hj
        dsimp only at hj
        by_cases hkn : keepNewQuiz q w0 = true
        · rw [if_pos hkn] at hj
          rcases mem_addId.mp hj with hj | hj
          · exact (mem_delId.mp hj).1
          · exact hj ▸ hq
        · rw [if_neg hkn] at hj
          exact (mem_delId.mp hj).1
  · rw [if_neg hq] at hj
    exact hj

theorem pass2_kept_sub : ∀ (l : List Quiz) (s : P2State),
    ∀ j ∈ (List.foldl p2Step s l).kept, j ∈ s.kept
  | [], _, _, hj => hj
  | q :: t, s, j, hj => by
    rw [List.foldl_cons] at hj
    exact p2Step_kept_sub s q j (pass2_kept_sub t (p2Step s q) j hj)

theorem p3Inner_post (L : List Quiz) (hnd : (L.map (fun x => x.id)).Nodup) :
    ∀ (rest : List Quiz) (q1 : Quiz) (kept : List Nat) (removed : List Quiz),
    q1 ∈ L → (∀ x ∈ rest, x ∈ L) →
    (∀ x ∈ L, (x.id ∈ kept ↔ x ∉ removed)) →
    (∀ j ∈ (p3Inner q1 rest kept removed).1, j ∈ kept) ∧
    (∀ x ∈ L, (x.id ∈ (p3Inner q1 rest kept removed).1 ↔ x ∉ (p3Inner q1 rest kept removed).2)) ∧
    (∀ x ∈ (p3Inner q1 rest kept removed).2, x ∈ removed ∨ x ∈ L) ∧
    (q1.id ∈ (p3Inner q1 rest kept removed).1 →
      ∀ q2 ∈ rest, q2.id ∈ (p3Inner q1 rest kept removed).1 →
        uidSkip q1 q2 = true ∨ p3Pair q1 q2 = false)
  | [], q1, kept, removed, _, _, hpart => by
    exact ⟨fun j hj => hj, hpart, fun x hx => Or.inl hx, fun _ q2 hq2 => absurd hq2 (by simp)⟩
  | q2 :: rest, q1, kept, removed, hq1L, hrestL, hpart => by
    have hq2L : q2 ∈ L := hrestL q2 (List.mem_cons_self _ _)
    have hrestL' : ∀ x ∈ rest, x ∈ L := fun x hx => hrestL x (List.mem_cons_of_mem _ hx)
    by_cases hk : q2.id ∈ kept
    · by_cases hs : uidSkip q1 q2 = true
      · have hstep : p3Inner q1 (q2 :: rest) kept removed = p3Inner q1 rest kept removed := by
          simp only [p3Inner]
          rw [if_pos hk, hs]
          simp only [if_true]
        rw [hstep]
        obtain ⟨r1, r2, r3, r4⟩ := p3Inner_post L hnd rest q1 kept removed hq1L hrestL' hpart
        refine ⟨r1, r2, r3, ?_⟩
        intro hq1k q2' hq2' hq2k'
        rcases List.mem_cons.mp hq2' with h | h
        · subst h
          exact Or.inl hs
        · exact r4 hq1k q2' h hq2k'
      · have hsf : uidSkip q1 q2 = false := Bool.not_eq_true _ ▸ hs
        by_cases hp : p3Pair q1 q2 = true
        · by_cases hkn : keepNewQuiz q1 q2 = true
          · have hstep : p3Inner q1 (q2 :: rest) kept removed
                = p3Inner q1 rest (delId kept q2.id) (removed ++ [q2]) := by
              simp only [p3Inner]
              rw [if_pos hk, hsf, hp, hkn]
              simp only [Bool.false_eq_true, if_false, if_true]
            rw [hstep]
            have hpart' : ∀ x ∈ L, (x.id ∈ delId kept q2.id ↔ x ∉ removed ++ [q2]) := by
              intro x hx
              by_cases hxq : x = q2
              · subst hxq
                rw [mem_delId]
                constructor
                · rintro ⟨_, hc⟩
                  exact absurd rfl hc
                · intro hr
                  exact absurd (List.mem_append_right _ (List.mem_singleton_self _)) hr
              · have hxid : x.id ≠ q2.id := fun hc => hxq (id_inj_of_nodup hnd hx hq2L hc)
                rw [mem_delId]
                constructor
                · rintro ⟨hk', _⟩ hr
                  rcases List.mem_append.mp hr with hr | hr
                  · exact ((hpart x hx).mp hk') hr
                  · rw [List.mem_singleton] at hr
                    exact hxq hr
                · intro hr
                  refine ⟨(hpart x hx).mpr ?_, hxid⟩
                  intro hc
                  exact hr (List.mem_append_left _ hc)
            obtain ⟨r1, r2, r3, r4⟩ := p3Inner_post L hnd rest q1 (delId kept q2.id)
              (removed ++ [q2]) hq1L hrestL' hpart'
            refine ⟨fun j hj => (mem_delId.mp (r1 j hj)).1, r2, ?_, ?_⟩
            · intro x hx
              rcases r3 x hx with h | h
              · rcases List.mem_append.mp h with h | h
                · exact Or.inl h
                · rw [List.mem_singleton] at h
                  exact Or.inr (h ▸ hq2L)
              · exact Or.inr h
            · intro hq1k q2' hq2' hq2k'
              rcases List.mem_cons.mp hq2' with h | h
              · subst h
                have := r1 _ hq2k'
                rw [mem_delId] at this
                exact absurd rfl this.2
              · exact r4 hq1k q2' h hq2k'
          · have hknf : keepNewQuiz q1 q2 = false := Bool.not_eq_true _ ▸ hkn
            have hstep : p3Inner q1 (q2 :: rest) kept removed
                = (delId kept q1.id, removed ++ [q1]) := by
              simp only [p3Inner]
              rw [if_pos hk, hsf, hp, hknf]
              simp only [Bool.false_eq_true, if_false, if_true]
            rw [hstep]
            refine ⟨fun j hj => (mem_delId.mp hj).1, ?_, ?_, ?_⟩
            · intro x hx
              by_cases hxq : x = q1
              · subst hxq
                rw [mem_delId]
                constructor
                · rintro ⟨_, hc⟩
                  exact absurd rfl hc
                · intro hr
                  exact absurd (List.mem_append_right _ (List.mem_singleton_self _)) hr
              · have hxid : x.id ≠ q1.id := fun hc => hxq (id_inj_of_nodup hnd hx hq1L hc)
                rw [mem_delId]
                constructor
                · rintro ⟨hk', _⟩ hr
                  rcases List.mem_append.mp hr with hr | hr
                  · exact ((hpart x hx).mp hk') hr
                  · rw [List.mem_singleton] at hr
                    exact hxq hr
                · intro hr
                  refine ⟨(hpart x hx).mpr ?_, hxid⟩
                  intro hc
                  exact hr (List.mem_append_left _ hc)
            · intro x hx
              rcases List.mem_append.mp hx with h | h
              · exact Or.inl h
              · rw [List.mem_singleton] at h
                exact Or.inr (h ▸ hq1L)
            · intro hq1k
              rw [mem_delId] at hq1k
              exact absurd rfl hq1k.2
        · have hpf : p3Pair q1 q2 = false := Bool.not_eq_true _ ▸ hp
          have hstep : p3Inner q1 (q2 :: rest) kept removed = p3Inner q1 rest kept removed := by
            simp only [p3Inner]
            rw [if_pos hk, hsf, hpf]
            simp only [Bool.false_eq_true, if_false]
          rw [hstep]
          obtain ⟨r1, r2, r3, r4⟩ := p3Inner_post L hnd rest q1 kept removed hq1L hrestL' hpart
          refine ⟨r1, r2, r3, ?_⟩
          intro hq1k q2' hq2' hq2k'
          rcases List.mem_cons.mp hq2' with h | h
          · subst h
            exact Or.inr hpf
          · exact r4 hq1k q2' h hq2k'
    · have hstep : p3Inner q1 (q2 :: rest) kept removed = p3Inner q1 rest kept removed := by
        simp only [p3Inner]
        rw [if_neg hk]
      rw [hstep]
      obtain ⟨r1, r2, r3, r4⟩ := p3Inner_post L hnd rest q1 kept removed hq1L hrestL' hpart
      refine ⟨r1, r2, r3, ?_⟩
      intro hq1k q2' hq2' hq2k'
      rcases List.mem_cons.mp hq2' with h | h
      · subst h
        exact absurd (r1 _ hq2k') hk
      · exact r4 hq1k q2' h hq2k'

theorem p3Outer_post (L : List Quiz) (hnd : (L.map (fun x => x.id)).Nodup) :
    ∀ (g : List Quiz) (kept : List Nat) (removed : List Quiz),
    (∀ x ∈ g, x ∈ L) →
    (∀ x ∈ L, (x.id ∈ kept ↔ x ∉ removed)) →
    (∀ j ∈ (p3Outer g kept removed).1, j ∈ kept) ∧
    (∀ x ∈ L, (x.id ∈ (p3Outer g kept removed).1 ↔ x ∉ (p3Outer g kept removed).2)) ∧
    (∀ x ∈ (p3Outer g kept removed).2, x ∈ removed ∨ x ∈ L) ∧
    List.Pairwise (fun q1 q2 => q1.id ∈ (p3Outer g kept removed).1 →
      q2.id ∈ (p3Outer g kept removed).1 →
      uidSkip q1 q2 = true ∨ p3Pair q1 q2 = false) g
  | [], kept, removed, _, hpart =>
    ⟨fun j hj => hj, hpart, fun x hx => Or.inl hx, List.Pairwise.nil⟩
  | q1 :: rest, kept, removed, hgL, hpart => by
    have hq1L : q1 ∈ L := hgL q1 (List.mem_cons_self _ _)
    have hrestL : ∀ x ∈ rest, x ∈ L := fun x hx => hgL x (List.mem_cons_of_mem _ hx)
    by_cases hk : q1.id ∈ kept
    · have hstep : p3Outer (q1 :: rest) kept removed
          = p3Outer rest (p3Inner q1 rest kept removed).1 (p3Inner q1 rest kept removed).2 := by
        simp only [p3Outer]
        rw [if_pos hk]
      rw [hstep]
      obtain ⟨i1, i2, i3, i4⟩ := p3Inner_post L hnd rest q1 kept removed hq1L hrestL hpart
      obtain ⟨r1, r2, r3, r4⟩ := p3Outer_post L hnd rest (p3Inner q1 rest kept removed).1
        (p3Inner q1 rest kept removed).2 hrestL i2
      refine ⟨fun j hj => i1 j (r1 j hj), r2, ?_, ?_⟩
      · intro x hx
        rcases r3 x hx with h | h
        · rcases i3 x h with h2 | h2
          · exact Or.inl h2
          · exact Or.inr h2
        · exact Or.inr h
      · rw [List.pairwise_cons]
        refine ⟨?_, r4⟩
        intro q2 hq2 hq1k hq2k
        exact i4 (r1 _ hq1k) q2 hq2 (r1 _ hq2k)
    · have hstep : p3Outer (q1 :: rest) kept removed = p3Outer rest kept removed := by
        simp only [p3Outer]
        rw [if_neg hk]
      rw [hstep]
      obtain ⟨r1, r2, r3, r4⟩ := p3Outer_post L hnd rest kept removed hrestL hpart
      refine ⟨r1, r2, r3, ?_⟩
      rw [List.pairwise_cons]
      refine ⟨?_, r4⟩
      intro q2 _ hq1k _
      exact absurd (r1 _ hq1k) hk

theorem pass3_post (L : List Quiz) (hnd : (L.map (fun x => x.id)).Nodup) :
    ∀ (groups : List (String × List Quiz)) (kept : List Nat) (removed : List Quiz),
    (∀ g ∈ groups, ∀ x ∈ g.2, x ∈ L) →
    (∀ x ∈ L, (x.id ∈ kept ↔ x ∉ removed)) →
    (∀ j ∈ (pass3 groups kept removed).1, j ∈ kept) ∧
    (∀ x ∈ L, (x.id ∈ (pass3 groups kept removed).1 ↔ x ∉ (pass3 groups kept removed).2)) ∧
    (∀ x ∈ (pass3 groups kept removed).2, x ∈ removed ∨ x ∈ L) ∧
    (∀ g ∈ groups, List.Pairwise (fun q1 q2 => q1.id ∈ (pass3 groups kept removed).1 →
      q2.id ∈ (pass3 groups kept removed).1 →
      uidSkip q1 q2 = true ∨ p3Pair q1 q2 = false) g.2)
  | [], kept, removed, _, hpart =>
    ⟨fun j hj => hj, hpart, fun x hx => Or.inl hx, fun g hg => absurd hg (by simp)⟩
  | g :: groups, kept, removed, hgL, hpart => by
    have hgL0 : ∀ x ∈ g.2, x ∈ L := hgL g (List.mem_cons_self _ _)
    have hgL' : ∀ g' ∈ groups, ∀ x ∈ g'.2, x ∈ L :=
      fun g' hg' => hgL g' (List.mem_cons_of_mem _ hg')
    by_cases hlen : g.2.length > 1
    · have hstep : pass3 (g :: groups) kept removed
          = pass3 groups (p3Outer g.2 kept removed).1 (p3Outer g.2 kept removed).2 := by
        unfold pass3
        rw [List.foldl_cons, if_pos hlen]
      rw [hstep]
      obtain ⟨o1, o2, o3, o4⟩ := p3Outer_post L hnd g.2 kept removed hgL0 hpart
      obtain ⟨r1, r2, r3, r4⟩ := pass3_post L hnd groups (p3Outer g.2 kept removed).1
        (p3Outer g.2 kept removed).2 hgL' o2
      refine ⟨fun j hj => o1 j (r1 j hj), r2, ?_, ?_⟩
      · intro x hx
        rcases r3 x hx with h | h
        · rcases o3 x h with h2 | h2
          · exact Or.inl h2
          · exact Or.inr h2
        · exact Or.inr h
      · intro g' hg'
        rcases List.mem_cons.mp hg' with h | h
        · subst h
          refine o4.imp ?_
          intro q1 q2 hrel hq1k hq2k
          exact hrel (r1 _ hq1k) (r1 _ hq2k)
        · exact r4 g' h
    · have hstep : pass3 (g :: groups) kept removed = pass3 groups kept removed := by
        unfold pass3
        rw [List.foldl_cons, if_neg hlen]
      rw [hstep]
      obtain ⟨r1, r2, r3, r4⟩ := pass3_post L hnd groups kept removed hgL' hpart
      refine ⟨r1, r2, r3, ?_⟩
      intro g' hg'
      rcases List.mem_cons.mp hg' with h | h
      · subst h
        have hshort : g'.2.length ≤ 1 := Nat.le_of_not_lt hlen
        exact @pairwise_of_short (fun q1 q2 => q1.id ∈ (pass3 groups kept removed).1 →
          q2.id ∈ (pass3 groups kept removed).1 →
          uidSkip q1 q2 = true ∨ p3Pair q1 q2 = false) g'.2 hshort
      · exact r4 g' h

theorem titleMapAdd_keys_of_mem : ∀ (m : List (String × List Quiz)) (t : String) (q : Quiz),
    t ∈ m.map Prod.fst → (titleMapAdd m t q).map Prod.fst = m.map Prod.fst
  | [], _, _, h => by cases h
  | (t', g') :: rest, t, q, h => by
    by_cases he : t' = t
    · simp only [titleMapAdd, if_pos he, List.map_cons]
    · simp only [List.map_cons, List.mem_cons] at h
      rcases h with h | h
      · exact absurd h.symm he
      · simp only [titleMapAdd, if_neg he, List.map_cons, List.cons.injEq, true_and]
        exact titleMapAdd_keys_of_mem rest t q h

theorem titleMapAdd_entries : ∀ (m : List (String × List Quiz)) (t : String) (q : Quiz),
    (m.map Prod.fst).Nodup →
    ∀ e' ∈ titleMapAdd m t q,
      (e' ∈ m ∧ e'.1 ≠ t) ∨ (e'.1 = t ∧ ∃ g, (t, g) ∈ m ∧ e'.2 = g ++ [q]) ∨
        (e' = (t, [q]) ∧ t ∉ m.map Prod.fst)
  | [], t, q, _, e', he' => by
    simp only [titleMapAdd, List.mem_singleton] at he'
    exact Or.inr (Or.inr ⟨he', by simp⟩)
  | (t', g') :: rest, t, q, hnd, e', he' => by
    rw [List.map_cons] at hnd
    obtain ⟨hkey, hnd'⟩ := List.nodup_cons.mp hnd
    by_cases he : t' = t
    · simp only [titleMapAdd, if_pos he, List.mem_cons] at he'
      rcases he' with he2 | he2
      · subst he2
        refine Or.inr (Or.inl ⟨he, g', ?_, rfl⟩)
        rw [← he]
        exact List.mem_cons_self _ _
      · refine Or.inl ⟨List.mem_cons_of_mem _ he2, ?_⟩
        intro hc
        rw [← he] at hc
        have hmm : e'.1 ∈ rest.map Prod.fst := List.mem_map_of_mem Prod.fst he2
        rw [hc] at hmm
        exact hkey hmm
    · simp only [titleMapAdd, if_neg he, List.mem_cons] at he'
      rcases he' with he' | he'
      · subst he'
        exact Or.inl ⟨List.mem_cons_self _ _, he⟩
      · rcases titleMapAdd_entries rest t q hnd' e' he' with h | h | h
        · exact Or.inl ⟨List.mem_cons_of_mem _ h.1, h.2⟩
        · obtain ⟨h1, g, hg, h2⟩ := h
          exact Or.inr (Or.inl ⟨h1, g, List.mem_cons_of_mem _ hg, h2⟩)
        · refine Or.inr (Or.inr ⟨h.1, ?_⟩)
          rw [List.map_cons]
          intro hc
          rcases List.mem_cons.mp hc with hc | hc
          · exact he hc.symm
          · exact h.2 hc

theorem buildTitleMap_main (kept : List Nat) :
    ∀ (l pre : List Quiz) (m : List (String × List Quiz)),
    (m.map Prod.fst).Nodup →
    (∀ e ∈ m, e.2 = pre.filter
      (fun x => decide (x.id ∈ kept) && decide (normStr x.title = e.1))) →
    (∀ x ∈ pre, x.id ∈ kept → normStr x.title ∈ m.map Prod.fst) →
    ∀ e ∈ List.foldl
      (fun m quiz => if quiz.id ∈ kept then titleMapAdd m (normStr quiz.title) quiz else m)
      m l,
      e.2 = (pre ++ l).filter
        (fun x => decide (x.id ∈ kept) && decide (normStr x.title = e.1))
  | [], pre, m, _, hent, _, e, he => by
    rw [List.append_nil]
    exact hent e he
  | q :: t, pre, m, hnd, hent, hcov, e, he => by
    rw [List.foldl_cons] at he
    have happ : pre ++ q :: t = (pre ++ [q]) ++ t := by
      rw [List.append_assoc, List.singleton_append]
    rw [happ]
    by_cases hqk : q.id ∈ kept
    · rw [if_pos hqk] at he
      by_cases ht0 : normStr q.title ∈ m.map Prod.fst
      · refine buildTitleMap_main kept t (pre ++ [q]) (titleMapAdd m (normStr q.title) q)
          ?_ ?_ ?_ e he
        · rw [titleMapAdd_keys_of_mem m _ q ht0]
          exact hnd
        · intro e' he'
          rcases titleMapAdd_entries m _ q hnd e' he' with h | h | h
          · rw [List.filter_append, (hent e' h.1)]
            have : [q].filter
                (fun x => decide (x.id ∈ kept) && decide (normStr x.title = e'.1)) = [] := by
              simp [h.2.symm]
            rw [this, List.append_nil]
          · obtain ⟨h1, g, hg, h2⟩ := h
            have hg2 : g = pre.filter
                (fun x => decide (x.id ∈ kept) && decide (normStr x.title = normStr q.title)) :=
              hent (normStr q.title, g) hg
            rw [h2, List.filter_append, h1, ← hg2]
            have hq1 : [q].filter
                (fun x => decide (x.id ∈ kept) && decide (normStr x.title = normStr q.title))
                = [q] := by
              simp [hqk]
            rw [hq1]
          · exact absurd ht0 (fun hc => h.2 hc)
        · intro x hx hxk
          rw [titleMapAdd_keys_of_mem m _ q ht0]
          rcases List.mem_append.mp hx with hx | hx
          · exact hcov x hx hxk
          · rw [List.mem_singleton] at hx
            subst hx
            exact ht0
      · have hfresh : ∀ e' ∈ m, e'.1 ≠ normStr q.title := by
          intro e' he' hc
          exact ht0 (hc ▸ List.mem_map_of_mem Prod.fst he')
        rw [titleMapAdd_fresh m _ q hfresh] at he
        refine buildTitleMap_main kept t (pre ++ [q]) (m ++ [(normStr q.title, [q])])
          ?_ ?_ ?_ e he
        · rw [List.map_append]
          rw [List.nodup_append]
          refine ⟨hnd, by simp, ?_⟩
          intro a ha
          simp only [List.map_cons, List.map_nil, List.mem_singleton]
          rw [List.mem_map] at ha
          obtain ⟨e', he', rfl⟩ := ha
          exact fun hc => hfresh e' he' hc
        · intro e' he'
          rcases List.mem_append.mp he' with hm1 | hm1
          · rw [List.filter_append, (hent e' hm1)]
            have hq0 : [q].filter
                (fun x => decide (x.id ∈ kept) && decide (normStr x.title = e'.1)) = [] := by
              rw [List.filter_eq_nil_iff]
              intro a ha
              rw [List.mem_singleton] at ha
              subst ha
              simp only [Bool.and_eq_true, decide_eq_true_eq, not_and]
              intro _ hat
              exact hfresh e' hm1 hat.symm
            rw [hq0, List.append_nil]
          · rw [List.mem_singleton] at hm1
            subst hm1
            rw [List.filter_append]
            have h1 : pre.filter
                (fun x => decide (x.id ∈ kept) && decide (normStr x.title = normStr q.title))
                = [] := by
              rw [List.filter_eq_nil_iff]
              intro a ha
              simp only [Bool.and_eq_true, decide_eq_true_eq, not_and]
              intro hak hat
              exact ht0 (hat ▸ hcov a ha hak)
            have h2 : [q].filter
                (fun x => decide (x.id ∈ kept) && decide (normStr x.title = normStr q.title))
                = [q] := by
              simp [hqk]
            rw [h1, h2, List.nil_append]
        · intro x hx hxk
          rw [List.map_append]
          rcases List.mem_append.mp hx with hx | hx
          · exact List.mem_append_left _ (hcov x hx hxk)
          · rw [List.mem_singleton] at hx
            subst hx
            exact List.mem_append_right _ (by simp)
    · rw [if_neg hqk] at he
      refine buildTitleMap_main kept t (pre ++ [q]) m hnd ?_ ?_ e he
      · intro e' he'
        rw [List.filter_append, (hent e' he')]
        have : [q].filter
            (fun x => decide (x.id ∈ kept) && decide (normStr x.title = e'.1)) = [] := by
          simp [hqk]
        rw [this, List.append_nil]
      · intro x hx hxk
        rcases List.mem_append.mp hx with hx | hx
        · exact hcov x hx hxk
        · rw [List.mem_singleton] at hx
          subst hx
          exact absurd hxk hqk

/-! ### C6: idempotence of the cleanup -/

/-- A list of quizzes whose truthy `uniqueId`s clash pairwise-never has a
duplicate-free `filterMap` of `uniqueId`s. -/
theorem nodup_filterMap_uid : ∀ (l : List Quiz),
    List.Pairwise (fun x y => ∀ u, jsUid x.uniqueId = some u → jsUid y.uniqueId ≠ some u) l →
    (l.filterMap (fun q => jsUid q.uniqueId)).Nodup
  | [], _ => List.nodup_nil
  | q :: t, hpw => by
    obtain ⟨hhead, htail⟩ := List.pairwise_cons.mp hpw
    rw [List.filterMap_cons]
    cases hu : jsUid q.uniqueId with
    | none => exact nodup_filterMap_uid t htail
    | some u =>
      rw [List.nodup_cons]
      refine ⟨?_, nodup_filterMap_uid t htail⟩
      intro hin
      rw [List.mem_filterMap] at hin
      obtain ⟨y, hy, hyu⟩ := hin
      exact hhead y hy u hu hyu

/-- The key just added by `titleMapAdd` is among the resulting keys. -/
theorem titleMapAdd_key_self : ∀ (m : List (String × List Quiz)) (t : String) (q : Quiz),
    t ∈ (titleMapAdd m t q).map Prod.fst
  | [], t, q => by simp [titleMapAdd]
  | (t', g) :: rest, t, q => by
    by_cases he : t' = t
    · simp only [titleMapAdd, if_pos he, List.map_cons, List.mem_cons]
      exact Or.inl he.symm
    · simp only [titleMapAdd, if_neg he, List.map_cons, List.mem_cons]
      exact Or.inr (titleMapAdd_key_self rest t q)

/-- `titleMapAdd` never drops an existing key. -/
theorem titleMapAdd_keys_mono : ∀ (m : List (String × List Quiz)) (t : String) (q : Quiz)
    (t0 : String), t0 ∈ m.map Prod.fst → t0 ∈ (titleMapAdd m t q).map Prod.fst
  | [], _, _, _, h => by cases h
  | (t', g) :: rest, t, q, t0, h => by
    rw [List.map_cons, List.mem_cons] at h
    by_cases he : t' = t
    · simp only [titleMapAdd, if_pos he, List.map_cons, List.mem_cons]
      rcases h with h | h
      · exact Or.inl h
      · exact Or.inr h
    · simp only [titleMapAdd, if_neg he, List.map_cons, List.mem_cons]
      rcases h with h | h
      · exact Or.inl h
      · exact Or.inr (titleMapAdd_keys_mono rest t q t0 h)

/-- Every kept record's normalised title shows up among the keys of the
`titleMap` fold. -/
theorem buildTitleMap_fold_keys (kept : List Nat) :
    ∀ (l : List Quiz) (m : List (String × List Quiz)) (t0 : String),
    (t0 ∈ m.map Prod.fst ∨ ∃ x, x ∈ l ∧ x.id ∈ kept ∧ normStr x.title = t0) →
    t0 ∈ (List.foldl
      (fun m quiz => if quiz.id ∈ kept then titleMapAdd m (normStr quiz.title) quiz else m)
      m l).map Prod.fst
  | [], m, t0, h => by
    rcases h with h | ⟨x, hx, _, _⟩
    · exact h
    · cases hx
  | q :: t, m, t0, h => by
    rw [List.foldl_cons]
    by_cases hq : q.id ∈ kept
    · rw [if_pos hq]
      refine buildTitleMap_fold_keys kept t (titleMapAdd m (normStr q.title) q) t0 ?_
      rcases h with h | ⟨x, hx, hxk, hxt⟩
      · exact Or.inl (titleMapAdd_keys_mono m (normStr q.title) q t0 h)
      · rcases List.mem_cons.mp hx with hx | hx
        · subst hx
          refine Or.inl ?_
          rw [← hxt]
          exact titleMapAdd_key_self m (normStr x.title) x
        · exact Or.inr ⟨x, hx, hxk, hxt⟩
    · rw [if_neg hq]
      refine buildTitleMap_fold_keys kept t m t0 ?_
      rcases h with h | ⟨x, hx, hxk, hxt⟩
      · exact Or.inl h
      · rcases List.mem_cons.mp hx with hx | hx
        · subst hx
          exact absurd hxk hq
        · exact Or.inr ⟨x, hx, hxk, hxt⟩

/-- Summary of the first cleanup run: the pass-1 map indexes every kept
record with a truthy `uniqueId`, the pass-2 map indexes every kept record
without one, the kept set only shrinks across passes, the kept/removed sets
partition the store, and inside every title group two records that both stay
kept are either uid-distinct or fail the similarity test. -/
theorem dedup_run1 (L : List Quiz) (s2 : P2State) (s3 : List Nat × List Quiz)
    (hnd : (L.map (fun q => q.id)).Nodup)
    (hs2 : s2 = pass2 L (pass1 L).kept (pass1 L).removed)
    (hs3 : s3 = pass3 (buildTitleMap L s2.kept) s2.kept s2.removed) :
    (∀ x ∈ L, ∀ u, jsUid x.uniqueId = some u → x.id ∈ (pass1 L).kept →
      assocFind (pass1 L).map u = some x) ∧
    (∀ x ∈ L, jsUid x.uniqueId = none → x.id ∈ s2.kept →
      assocFind s2.map (createContentHash x) = some x) ∧
    (∀ j ∈ s2.kept, j ∈ (pass1 L).kept) ∧
    (∀ j ∈ s3.1, j ∈ s2.kept) ∧
    (∀ x ∈ L, (x.id ∈ s3.1 ↔ x ∉ s3.2)) ∧
    (∀ x ∈ s3.2, x ∈ L) ∧
    (∀ g ∈ buildTitleMap L s2.kept,
      List.Pairwise (fun q1 q2 => q1.id ∈ s3.1 → q2.id ∈ s3.1 →
        uidSkip q1 q2 = true ∨ p3Pair q1 q2 = false) g.2) := by
  subst hs3
  subst hs2
  obtain ⟨m1, w1, k1, part1, r1⟩ := pass1_main L [] { map := [], kept := [], removed := [] } hnd
    (by intro u w h; simp [assocFind] at h)
    (by intro x hx; cases hx)
    (by intro j hj; cases hj)
    (by intro x hx; cases hx)
    (by intro x hx; cases hx)
  obtain ⟨m2, w2, part2, r2⟩ := pass2_main L []
    { map := [], kept := (pass1 L).kept, removed := (pass1 L).removed } hnd
    (by intro h w hf; simp [assocFind] at hf)
    (by intro x hx; cases hx)
    part1 r1
  have hgmem : ∀ g ∈ buildTitleMap L (pass2 L (pass1 L).kept (pass1 L).removed).kept,
      ∀ x ∈ g.2, x ∈ L := by
    intro g hg x hx
    have hgeq := buildTitleMap_main (pass2 L (pass1 L).kept (pass1 L).removed).kept L [] []
      List.nodup_nil (by intro e he; cases he) (by intro x0 hx0; cases hx0) g hg
    rw [hgeq] at hx
    exact (List.mem_filter.mp hx).1
  obtain ⟨p31, part3, r3, pw3⟩ := pass3_post L hnd
    (buildTitleMap L (pass2 L (pass1 L).kept (pass1 L).removed).kept)
    (pass2 L (pass1 L).kept (pass1 L).removed).kept
    (pass2 L (pass1 L).kept (pass1 L).removed).removed hgmem part2
  refine ⟨w1, w2,
    pass2_kept_sub L { map := [], kept := (pass1 L).kept, removed := (pass1 L).removed },
    p31, part3, ?_, pw3⟩
  intro x hx
  rcases r3 x hx with h | h
  · exact r2 x h
  · exact h

/-- Two distinct records that both survive the full cleanup never share a
truthy `uniqueId` (pass 1 keeps at most one record per `uniqueId`). -/
theorem run1_uid_pairwise (L : List Quiz) (s2 : P2State) (s3 : List Nat × List Quiz)
    (hnd : (L.map (fun q => q.id)).Nodup)
    (hs2 : s2 = pass2 L (pass1 L).kept (pass1 L).removed)
    (hs3 : s3 = pass3 (buildTitleMap L s2.kept) s2.kept s2.removed) :
    List.Pairwise (fun x y => x.id ∈ s3.1 → y.id ∈ s3.1 →
      ∀ u, jsUid x.uniqueId = some u → jsUid y.uniqueId ≠ some u) L := by
  obtain ⟨w1, w2, k12, p31, part3, r3L, pw3⟩ := dedup_run1 L s2 s3 hnd hs2 hs3
  have hidpw : List.Pairwise (fun x y => x.id ≠ y.id) L := List.pairwise_map.mp hnd
  refine hidpw.imp_of_mem ?_
  intro x y hx hy hne hx3 hy3 u hux huy
  have h1 := w1 x hx u hux (k12 _ (p31 _ hx3))
  have h2 := w1 y hy u huy (k12 _ (p31 _ hy3))
  exact hne (congrArg Quiz.id (Option.some.inj (h1.symm.trans h2)))

/-- Two distinct records that both survive the full cleanup and both lack a
truthy `uniqueId` never share a content fingerprint (pass 2 keeps at most one
record per fingerprint). -/
theorem run1_hash_pairwise (L : List Quiz) (s2 : P2State) (s3 : List Nat × List Quiz)
    (hnd : (L.map (fun q => q.id)).Nodup)
    (hs2 : s2 = pass2 L (pass1 L).kept (pass1 L).removed)
    (hs3 : s3 = pass3 (buildTitleMap L s2.kept) s2.kept s2.removed) :
    List.Pairwise (fun x y => x.id ∈ s3.1 → y.id ∈ s3.1 →
      jsUid x.uniqueId = none → jsUid y.uniqueId = none →
      createContentHash x ≠ createContentHash y) L := by
  obtain ⟨w1, w2, k12, p31, part3, r3L, pw3⟩ := dedup_run1 L s2 s3 hnd hs2 hs3
  have hidpw : List.Pairwise (fun x y => x.id ≠ y.id) L := List.pairwise_map.mp hnd
  refine hidpw.imp_of_mem ?_
  intro x y hx hy hne hx3 hy3 hxu hyu hc
  have h1 := w2 x hx hxu (p31 _ hx3)
  have h2 := w2 y hy hyu (p31 _ hy3)
  rw [hc] at h1
  exact hne (congrArg Quiz.id (Option.some.inj (h1.symm.trans h2)))

/-- Two distinct records that both survive the full cleanup and share a
normalised title are either uid-distinct or fail the pass-3 similarity test:
they sat together in that title's group, and pass 3 post-establishes exactly
this disjunction for kept pairs. -/
theorem run1_title_pairwise (L : List Quiz) (s2 : P2State) (s3 : List Nat × List Quiz)
    (hnd : (L.map (fun q => q.id)).Nodup)
    (hs2 : s2 = pass2 L (pass1 L).kept (pass1 L).removed)
    (hs3 : s3 = pass3 (buildTitleMap L s2.kept) s2.kept s2.removed) :
    List.Pairwise (fun x y => x.id ∈ s3.1 → y.id ∈ s3.1 →
      normStr x.title = normStr y.title →
      uidSkip x y = true ∨ p3Pair x y = false) L := by
  obtain ⟨w1, w2, k12, p31, part3, r3L, pw3⟩ := dedup_run1 L s2 s3 hnd hs2 hs3
  subst hs3
  subst hs2
  rw [List.pairwise_iff_forall_sublist]
  intro a b hsub
  intro ha3 hb3 htitle
  have haL : a ∈ L := hsub.subset (List.mem_cons_self _ _)
  have hbL : b ∈ L := hsub.subset (List.mem_cons_of_mem _ (List.mem_cons_self _ _))
  have ha2 : a.id ∈ (pass2 L (pass1 L).kept (pass1 L).removed).kept := p31 _ ha3
  have hb2 : b.id ∈ (pass2 L (pass1 L).kept (pass1 L).removed).kept := p31 _ hb3
  have hcov : normStr a.title
      ∈ (buildTitleMap L (pass2 L (pass1 L).kept (pass1 L).removed).kept).map Prod.fst :=
    buildTitleMap_fold_keys (pass2 L (pass1 L).kept (pass1 L).removed).kept L []
      (normStr a.title) (Or.inr ⟨a, haL, ha2, rfl⟩)
  rw [List.mem_map] at hcov
  obtain ⟨g, hg, hgt⟩ := hcov
  have hgeq := buildTitleMap_main (pass2 L (pass1 L).kept (pass1 L).removed).kept L [] []
    List.nodup_nil (by intro e he; cases he) (by intro x0 hx0; cases hx0) g hg
  have hfa : (decide (a.id ∈ (pass2 L (pass1 L).kept (pass1 L).removed).kept)
      && decide (normStr a.title = g.1)) = true := by
    rw [Bool.and_eq_true, decide_eq_true_eq, decide_eq_true_eq]
    exact ⟨ha2, hgt.symm⟩
  have hfb : (decide (b.id ∈ (pass2 L (pass1 L).kept (pass1 L).removed).kept)
      && decide (normStr b.title = g.1)) = true := by
    rw [Bool.and_eq_true, decide_eq_true_eq, decide_eq_true_eq]
    refine ⟨hb2, ?_⟩
    rw [← htitle]
    exact hgt.symm
  have habg : [a, b].Sublist g.2 := by
    rw [hgeq]
    have h2 := List.Sublist.filter
      (fun x => decide (x.id ∈ (pass2 L (pass1 L).kept (pass1 L).removed).kept)
        && decide (normStr x.title = g.1)) hsub
    have heq : [a, b].filter
        (fun x => decide (x.id ∈ (pass2 L (pass1 L).kept (pass1 L).removed).kept)
          && decide (normStr x.title = g.1)) = [a, b] := by
      simp [List.filter_cons, hfa, hfb]
    rw [heq] at h2
    exact h2
  exact List.pairwise_iff_forall_sublist.mp (pw3 g hg) habg ha3 hb3

/-- The records surviving `removeDuplicateQuizzes` are exactly the stored
records whose id escapes the final removal list. -/
theorem dedup_survivors (st : MemStorage) (s3 : List Nat × List Quiz)
    (hnd : (st.quizzes.map (fun q => q.id)).Nodup)
    (hs3 : s3 = pass3
      (buildTitleMap st.quizzes
        (pass2 st.quizzes (pass1 st.quizzes).kept (pass1 st.quizzes).removed).kept)
      (pass2 st.quizzes (pass1 st.quizzes).kept (pass1 st.quizzes).removed).kept
      (pass2 st.quizzes (pass1 st.quizzes).kept (pass1 st.quizzes).removed).removed) :
    (removeDuplicateQuizzes st).1.quizzes
      = st.quizzes.filter (fun q => !(s3.2.any (fun p => p.id = q.id))) := by
  subst hs3
  exact delFold_eq_filter _ st.quizzes 0 hnd

/-- When the three passes push nothing onto `duplicatesRemoved`, the cleanup
returns the store unchanged with count 0. -/
theorem dedup_noop_of_removed_nil (st : MemStorage)
    (h : (pass3
      (buildTitleMap st.quizzes
        (pass2 st.quizzes (pass1 st.quizzes).kept (pass1 st.quizzes).removed).kept)
      (pass2 st.quizzes (pass1 st.quizzes).kept (pass1 st.quizzes).removed).kept
      (pass2 st.quizzes (pass1 st.quizzes).kept (pass1 st.quizzes).removed).removed).2 = []) :
    removeDuplicateQuizzes st = (st, 0) := by
  unfold removeDuplicateQuizzes
  dsimp only
  rw [h]
  rfl

/-- C6: `removeDuplicateQuizzes` is idempotent on any store with distinct
record ids (the `Map` invariant): a second run removes nothing and returns
the once-cleaned store unchanged with count 0, because the survivors of the
first run have pairwise-distinct truthy `uniqueId`s, pairwise-distinct
fingerprints among uid-less records, and pairwise fail (or uid-skip) the
pass-3 similarity test within every shared-title group. -/
theorem c6_dedup_idempotent (st : MemStorage)
    (hnd : (st.quizzes.map (fun q => q.id)).Nodup) :
    removeDuplicateQuizzes (removeDuplicateQuizzes st).1 = ((removeDuplicateQuizzes st).1, 0) := by
  obtain ⟨w1, w2, k12, p31, part3, r3L, pw3⟩ := dedup_run1 st.quizzes
    (pass2 st.quizzes (pass1 st.quizzes).kept (pass1 st.quizzes).removed)
    (pass3
      (buildTitleMap st.quizzes
        (pass2 st.quizzes (pass1 st.quizzes).kept (pass1 st.quizzes).removed).kept)
      (pass2 st.quizzes (pass1 st.quizzes).kept (pass1 st.quizzes).removed).kept
      (pass2 st.quizzes (pass1 st.quizzes).kept (pass1 st.quizzes).removed).removed)
    hnd rfl rfl
  have hS := dedup_survivors st _ hnd rfl
  have hmemS : ∀ x, x ∈ (removeDuplicateQuizzes st).1.quizzes ↔
      x ∈ st.quizzes ∧ x.id ∈ (pass3
        (buildTitleMap st.quizzes
          (pass2 st.quizzes (pass1 st.quizzes).kept (pass1 st.quizzes).removed).kept)
        (pass2 st.quizzes (pass1 st.quizzes).kept (pass1 st.quizzes).removed).kept
        (pass2 st.quizzes (pass1 st.quizzes).kept (pass1 st.quizzes).removed).removed).1 := by
    intro x
    rw [hS, List.mem_filter]
    constructor
    · rintro ⟨hxL, hp⟩
      refine ⟨hxL, ?_⟩
      rw [part3 x hxL]
      intro hxr
      simp only [Bool.not_eq_true', List.any_eq_false] at hp
      exact hp x hxr (by simp)
    · rintro ⟨hxL, hx3⟩
      refine ⟨hxL, ?_⟩
      simp only [Bool.not_eq_true', List.any_eq_false]
      intro p hp2 hpe
      have hpL : p ∈ st.quizzes := r3L p hp2
      have hpx : p = x := id_inj_of_nodup hnd hpL hxL (of_decide_eq_true hpe)
      subst hpx
      exact absurd hp2 ((part3 p hpL).mp hx3)
  have hS3 : ∀ x ∈ (removeDuplicateQuizzes st).1.quizzes, x.id ∈ (pass3
      (buildTitleMap st.quizzes
        (pass2 st.quizzes (pass1 st.quizzes).kept (pass1 st.quizzes).removed).kept)
      (pass2 st.quizzes (pass1 st.quizzes).kept (pass1 st.quizzes).removed).kept
      (pass2 st.quizzes (pass1 st.quizzes).kept (pass1 st.quizzes).removed).removed).1 :=
    fun x hx => ((hmemS x).mp hx).2
  have hpwU : List.Pairwise (fun x y => ∀ u, jsUid x.uniqueId = some u →
      jsUid y.uniqueId ≠ some u) (removeDuplicateQuizzes st).1.quizzes := by
    have h0 := run1_uid_pairwise st.quizzes
      (pass2 st.quizzes (pass1 st.quizzes).kept (pass1 st.quizzes).removed) _ hnd rfl rfl
    have h1 : List.Pairwise (fun x y => x.id ∈ (pass3
        (buildTitleMap st.quizzes
          (pass2 st.quizzes (pass1 st.quizzes).kept (pass1 st.quizzes).removed).kept)
        (pass2 st.quizzes (pass1 st.quizzes).kept (pass1 st.quizzes).removed).kept
        (pass2 st.quizzes (pass1 st.quizzes).kept (pass1 st.quizzes).removed).removed).1 →
        y.id ∈ (pass3
        (buildTitleMap st.quizzes
          (pass2 st.quizzes (pass1 st.quizzes).kept (pass1 st.quizzes).removed).kept)
        (pass2 st.quizzes (pass1 st.quizzes).kept (pass1 st.quizzes).removed).kept
        (pass2 st.quizzes (pass1 st.quizzes).kept (pass1 st.quizzes).removed).removed).1 →
        ∀ u, jsUid x.uniqueId = some u → jsUid y.uniqueId ≠ some u)
        (removeDuplicateQuizzes st).1.quizzes := by
      rw [hS]
      exact h0.filter _
    exact h1.imp_of_mem (fun hx hy h => h (hS3 _ hx) (hS3 _ hy))
  have hpwH : List.Pairwise (fun x y => jsUid x.uniqueId = none → jsUid y.uniqueId = none →
      createContentHash x ≠ createContentHash y) (removeDuplicateQuizzes st).1.quizzes := by
    have h0 := run1_hash_pairwise st.quizzes
      (pass2 st.quizzes (pass1 st.quizzes).kept (pass1 st.quizzes).removed) _ hnd rfl rfl
    have h1 : List.Pairwise (fun x y => x.id ∈ (pass3
        (buildTitleMap st.quizzes
          (pass2 st.quizzes (pass1 st.quizzes).kept (pass1 st.quizzes).removed).kept)
        (pass2 st.quizzes (pass1 st.quizzes).kept (pass1 st.quizzes).removed).kept
        (pass2 st.quizzes (pass1 st.quizzes).kept (pass1 st.quizzes).removed).removed).1 →
        y.id ∈ (pass3
        (buildTitleMap st.quizzes
          (pass2 st.quizzes (pass1 st.quizzes).kept (pass1 st.quizzes).removed).kept)
        (pass2 st.quizzes (pass1 st.quizzes).kept (pass1 st.quizzes).removed).kept
        (pass2 st.quizzes (pass1 st.quizzes).kept (pass1 st.quizzes).removed).removed).1 →
        jsUid x.uniqueId = none → jsUid y.uniqueId = none →
        createContentHash x ≠ createContentHash y)
        (removeDuplicateQuizzes st).1.quizzes := by
      rw [hS]
      exact h0.filter _
    exact h1.imp_of_mem (fun hx hy h => h (hS3 _ hx) (hS3 _ hy))
  have hpwT : List.Pairwise (fun x y => normStr x.title = normStr y.title →
      uidSkip x y = true ∨ p3Pair x y = false) (removeDuplicateQuizzes st).1.quizzes := by
    have h0 := run1_title_pairwise st.quizzes
      (pass2 st.quizzes (pass1 st.quizzes).kept (pass1 st.quizzes).removed) _ hnd rfl rfl
    have h1 : List.Pairwise (fun x y => x.id ∈ (pass3
        (buildTitleMap st.quizzes
          (pass2 st.quizzes (pass1 st.quizzes).kept (pass1 st.quizzes).removed).kept)
        (pass2 st.quizzes (pass1 st.quizzes).kept (pass1 st.quizzes).removed).kept
        (pass2 st.quizzes (pass1 st.quizzes).kept (pass1 st.quizzes).removed).removed).1 →
        y.id ∈ (pass3
        (buildTitleMap st.quizzes
          (pass2 st.quizzes (pass1 st.quizzes).kept (pass1 st.quizzes).removed).kept)
        (pass2 st.quizzes (pass1 st.quizzes).kept (pass1 st.quizzes).removed).kept
        (pass2 st.quizzes (pass1 st.quizzes).kept (pass1 st.quizzes).removed).removed).1 →
        normStr x.title = normStr y.title →
        uidSkip x y = true ∨ p3Pair x y = false)
        (removeDuplicateQuizzes st).1.quizzes := by
      rw [hS]
      exact h0.filter _
    exact h1.imp_of_mem (fun hx hy h ht => h (hS3 _ hx) (hS3 _ hy) ht)
  have h1 := pass1_fold_fresh (removeDuplicateQuizzes st).1.quizzes
    { map := [], kept := [], removed := [] }
    (nodup_filterMap_uid _ hpwU)
    (by intro u hin; simp [assocFind] at hin)
  have h2 := pass2_fold_fresh (removeDuplicateQuizzes st).1.quizzes
    { map := []
      kept := (pass1 (removeDuplicateQuizzes st).1.quizzes).kept
      removed := (pass1 (removeDuplicateQuizzes st).1.quizzes).removed }
    (hpwH.imp (fun h _ _ hn hn' => h hn hn'))
    (by intro h hin; simp [assocFind] at hin)
  have hpw3' : ∀ g ∈ buildTitleMap (removeDuplicateQuizzes st).1.quizzes
      (pass2 (removeDuplicateQuizzes st).1.quizzes
        (pass1 (removeDuplicateQuizzes st).1.quizzes).kept
        (pass1 (removeDuplicateQuizzes st).1.quizzes).removed).kept,
      List.Pairwise (fun q1 q2 =>
        q1.id ∈ (pass2 (removeDuplicateQuizzes st).1.quizzes
          (pass1 (removeDuplicateQuizzes st).1.quizzes).kept
          (pass1 (removeDuplicateQuizzes st).1.quizzes).removed).kept →
        q2.id ∈ (pass2 (removeDuplicateQuizzes st).1.quizzes
          (pass1 (removeDuplicateQuizzes st).1.quizzes).kept
          (pass1 (removeDuplicateQuizzes st).1.quizzes).removed).kept →
        uidSkip q1 q2 = true ∨ p3Pair q1 q2 = false) g.2 := by
    intro g hg
    have hgeq := buildTitleMap_main
      (pass2 (removeDuplicateQuizzes st).1.quizzes
        (pass1 (removeDuplicateQuizzes st).1.quizzes).kept
        (pass1 (removeDuplicateQuizzes st).1.quizzes).removed).kept
      (removeDuplicateQuizzes st).1.quizzes [] []
      List.nodup_nil (by intro e he; cases he) (by intro x0 hx0; cases hx0) g hg
    have hpg : List.Pairwise (fun x y => normStr x.title = normStr y.title →
        uidSkip x y = true ∨ p3Pair x y = false) g.2 := by
      rw [hgeq]
      exact hpwT.filter _
    refine hpg.imp_of_mem ?_
    intro q1 q2 h1m h2m hrel
    intro h1k h2k
    refine hrel ?_
    rw [hgeq] at h1m h2m
    have t1 := (List.mem_filter.mp h1m).2
    have t2 := (List.mem_filter.mp h2m).2
    rw [Bool.and_eq_true, decide_eq_true_eq, decide_eq_true_eq] at t1 t2
    rw [t1.2, t2.2]
  have h3 := pass3_noop
    (buildTitleMap (removeDuplicateQuizzes st).1.quizzes
      (pass2 (removeDuplicateQuizzes st).1.quizzes
        (pass1 (removeDuplicateQuizzes st).1.quizzes).kept
        (pass1 (removeDuplicateQuizzes st).1.quizzes).removed).kept)
    (pass2 (removeDuplicateQuizzes st).1.quizzes
      (pass1 (removeDuplicateQuizzes st).1.quizzes).kept
      (pass1 (removeDuplicateQuizzes st).1.quizzes).removed).kept
    (pass2 (removeDuplicateQuizzes st).1.quizzes
      (pass1 (removeDuplicateQuizzes st).1.quizzes).kept
      (pass1 (removeDuplicateQuizzes st).1.quizzes).removed).removed
    hpw3'
  have hrem2 : (pass3
      (buildTitleMap (removeDuplicateQuizzes st).1.quizzes
        (pass2 (removeDuplicateQuizzes st).1.quizzes
          (pass1 (removeDuplicateQuizzes st).1.quizzes).kept
          (pass1 (removeDuplicateQuizzes st).1.quizzes).removed).kept)
      (pass2 (removeDuplicateQuizzes st).1.quizzes
        (pass1 (removeDuplicateQuizzes st).1.quizzes).kept
        (pass1 (removeDuplicateQuizzes st).1.quizzes).removed).kept
      (pass2 (removeDuplicateQuizzes st).1.quizzes
        (pass1 (removeDuplicateQuizzes st).1.quizzes).kept
        (pass1 (removeDuplicateQuizzes st).1.quizzes).removed).removed).2 = [] := by
    rw [h3]
    exact h2.2.trans h1.1
  exact dedup_noop_of_removed_nil (removeDuplicateQuizzes st).1 hrem2

/-- C6, witnessed at a concrete store on which the first run removes the
fuzzy-matched record and the second run is the identity. -/
theorem c6_dedup_idempotent_witness :
    ((c6St.quizzes.map (fun q => q.id)).Nodup) ∧
    removeDuplicateQuizzes (removeDuplicateQuizzes c6St).1 = ((removeDuplicateQuizzes c6St).1, 0) :=
  ⟨by decide, c6_dedup_idempotent c6St (by decide)⟩
